import Mathlib

set_option maxHeartbeats 1000000

/-!
Verification of core components of the dss-coding-assignment repository:
the background fetch engine (src/fetcher.rs), the retained-mode widget
cache (src/app/widget.rs), and the grid-navigation logic (src/menu.rs),
shallowly embedded in Lean 4.

Hash maps (fnv::FnvHashMap) are modelled as association lists with
unique keys; machine integers are modelled as Nat/Int with explicit
wrapping where Rust casts wrap.
-/

-- ## Association lists modelling fnv::FnvHashMap

def alookup {κ α : Type} [DecidableEq κ] : List (κ × α) → κ → Option α
  | [], _ => none
  | p :: rest, k => if p.1 = k then some p.2 else alookup rest k

/-- Models in-place mutation of the value stored at key `k` (no-op when absent). -/
def aupdate {κ α : Type} [DecidableEq κ] (l : List (κ × α)) (k : κ) (f : α → α) :
    List (κ × α) :=
  l.map fun p => if p.1 = k then (p.1, f p.2) else p

/-- Models HashMap::remove / OccupiedEntry::remove. -/
def aremove {κ α : Type} [DecidableEq κ] (l : List (κ × α)) (k : κ) : List (κ × α) :=
  l.filter fun p => p.1 ≠ k

theorem alookup_aupdate_self {κ α : Type} [DecidableEq κ] (l : List (κ × α)) (k : κ)
    (f : α → α) : alookup (aupdate l k f) k = (alookup l k).map f := by
  induction l with
  | nil => rfl
  | cons p rest ih =>
    show alookup ((if p.1 = k then (p.1, f p.2) else p) :: aupdate rest k f) k = _
    by_cases hp : p.1 = k
    · simp [alookup, hp]
    · simp only [if_neg hp, alookup, ih]

theorem alookup_aupdate_ne {κ α : Type} [DecidableEq κ] (l : List (κ × α)) (k j : κ)
    (f : α → α) (h : j ≠ k) : alookup (aupdate l k f) j = alookup l j := by
  induction l with
  | nil => rfl
  | cons p rest ih =>
    show alookup ((if p.1 = k then (p.1, f p.2) else p) :: aupdate rest k f) j = _
    by_cases hp : p.1 = k
    · have hne : p.1 ≠ j := by rw [hp]; exact Ne.symm h
      simp only [if_pos hp, alookup, if_neg hne, ih]
    · simp only [if_neg hp, alookup, ih]

theorem alookup_aremove_self {κ α : Type} [DecidableEq κ] (l : List (κ × α)) (k : κ) :
    alookup (aremove l k) k = none := by
  induction l with
  | nil => rfl
  | cons p rest ih =>
    by_cases hp : p.1 = k
    · simpa [aremove, List.filter_cons, hp] using ih
    · simpa [aremove, List.filter_cons, hp, alookup] using ih

theorem alookup_aremove_ne {κ α : Type} [DecidableEq κ] (l : List (κ × α)) (k j : κ)
    (h : j ≠ k) : alookup (aremove l k) j = alookup l j := by
  induction l with
  | nil => rfl
  | cons p rest ih =>
    by_cases hp : p.1 = k
    · simpa [aremove, List.filter_cons, hp, alookup, Ne.symm h] using ih
    · by_cases hj : p.1 = j
      · simp [aremove, List.filter_cons, hp, alookup, hj, h]
      · simpa [aremove, List.filter_cons, hp, alookup, hj] using ih

theorem alookup_append_of_some {κ α : Type} [DecidableEq κ] {l₁ : List (κ × α)}
    {k : κ} {v : α} (l₂ : List (κ × α)) (h : alookup l₁ k = some v) :
    alookup (l₁ ++ l₂) k = some v := by
  induction l₁ with
  | nil => simp [alookup] at h
  | cons p rest ih =>
    by_cases hp : p.1 = k
    · simp [alookup, hp] at h ⊢; exact h
    · simp [alookup, hp] at h ⊢; exact ih h

theorem alookup_append_of_none {κ α : Type} [DecidableEq κ] {l₁ : List (κ × α)}
    {k : κ} (l₂ : List (κ × α)) (h : alookup l₁ k = none) :
    alookup (l₁ ++ l₂) k = alookup l₂ k := by
  induction l₁ with
  | nil => rfl
  | cons p rest ih =>
    by_cases hp : p.1 = k
    · simp [alookup, hp] at h
    · simp [alookup, hp] at h ⊢; exact ih h

-- ## Fetch Engine (src/fetcher.rs)

/-- Mirrors std::task::Poll, the status type stored in the download cache. -/
inductive Poll (α : Type) : Type
  | ready (value : α)
  | pending
deriving DecidableEq

instance {ε α : Type} [DecidableEq ε] [DecidableEq α] : DecidableEq (Except ε α) :=
  fun a b =>
    match a, b with
    | Except.ok x, Except.ok y => decidable_of_iff (x = y) (by simp)
    | Except.ok _, Except.error _ => isFalse (by simp)
    | Except.error _, Except.ok _ => isFalse (by simp)
    | Except.error d, Except.error e => decidable_of_iff (d = e) (by simp)

/-- The in-memory download cache (type DownloadCache in fetcher.rs), keyed by URL.
URLs and filesystem paths are modelled as strings, errors as strings. -/
abbrev DownloadCache : Type := List (String × Poll (Except String String))

/-- The synchronous bookkeeping of fn process in fetcher.rs: the cache table is
locked, the entry for the URL is checked-or-inserted, and a response is produced.
Returns (response sent back to the Fetcher, updated cache, whether a new
download task was spawned by this request). -/
def process (cache : DownloadCache) (url : String) :
    Poll (Except String String) × DownloadCache × Bool :=
  match alookup cache url with
  | some (Poll.ready (Except.ok tempPath)) =>
    -- This URL has been requested before and is done: respond with the cached path.
    (Poll.ready (Except.ok tempPath), cache, false)
  | some (Poll.ready (Except.error e)) =>
    -- Previous download failed: remove the entry so the download can be
    -- restarted on the next request, and forward the error now.
    (Poll.ready (Except.error e), aremove cache url, false)
  | some Poll.pending =>
    -- A download for this URL is already in flight: respond pending, spawn nothing.
    (Poll.pending, cache, false)
  | none =>
    -- Never-seen URL: insert a pending entry, respond pending, spawn the download.
    (Poll.pending, cache ++ [(url, Poll.pending)], true)

/-- Models the end of a spawned download task writing its result back into the
cache: the final statement of the Vacant branch of fn process. -/
def finishDownload (cache : DownloadCache) (url : String)
    (result : Except String String) : DownloadCache :=
  aupdate cache url fun _ => Poll.ready result

/-- State of the worker thread: the download cache plus the multiset of
currently in-flight download tasks (one list element per spawned, not yet
completed task). -/
structure FState where
  cache : DownloadCache
  inflight : List String

/-- One poll_fetch request arriving at the worker: runs fn process and records
the spawned task, if any. -/
def requestStep (s : FState) (u : String) : FState × Poll (Except String String) :=
  let r := process s.cache u
  ({ cache := r.2.1, inflight := if r.2.2 then s.inflight ++ [u] else s.inflight }, r.1)

/-- A spawned download task finishing with `result`. -/
def completeStep (s : FState) (u : String) (result : Except String String) : FState :=
  { cache := finishDownload s.cache u result, inflight := s.inflight.erase u }

/-- Worker states reachable from startup by any interleaving of requests and
task completions (a completion event can only happen for an in-flight task). -/
inductive Reach : FState → Prop
  | init : Reach ⟨[], []⟩
  | request (s : FState) (u : String) : Reach s → Reach (requestStep s u).1
  | complete (s : FState) (u : String) (r : Except String String) :
      Reach s → u ∈ s.inflight → Reach (completeStep s u r)

/-- Invariant tying the in-flight task count of every URL to its cache entry. -/
def FInv (s : FState) : Prop :=
  ∀ u : String,
    s.inflight.count u = if alookup s.cache u = some Poll.pending then 1 else 0

theorem reach_finv {s : FState} (h : Reach s) : FInv s := by
  induction h with
  | init => intro u; simp [alookup]
  | request s u _ ih =>
    intro v
    rcases hl : alookup s.cache u with _ | st
    · by_cases hvu : v = u
      · subst hvu
        have hv := ih v
        simp [hl] at hv
        simp [requestStep, process, hl, List.count_append, hv,
          alookup_append_of_none _ hl, alookup]
      · have hv := ih v
        simp [requestStep, process, hl, List.count_append,
          List.count_singleton, hvu]
        rcases hv2 : alookup s.cache v with _ | st2
        · simp [alookup_append_of_none _ hv2, alookup, Ne.symm hvu]
          simpa [hv2] using hv
        · simp [alookup_append_of_some _ hv2]
          simpa [hv2] using hv
    · rcases st with r | _
      · rcases r with e | p
        · by_cases hvu : v = u
          · subst hvu
            have hv := ih v
            simp [hl] at hv
            simp [requestStep, process, hl, alookup_aremove_self, hv]
          · simpa [requestStep, process, hl, alookup_aremove_ne s.cache u v hvu] using ih v
        · simpa [requestStep, process, hl] using ih v
      · simpa [requestStep, process, hl] using ih v
  | complete s u r _ hu ih =>
    intro v
    have hcu : alookup s.cache u = some Poll.pending := by
      by_contra hne
      have hcnt := ih u
      simp [hne] at hcnt
      rw [List.count_eq_zero] at hcnt
      exact hcnt hu
    by_cases hvu : v = u
    · subst hvu
      have h1 : s.inflight.count v = 1 := by simpa [hcu] using ih v
      simp [completeStep, finishDownload, alookup_aupdate_self, hcu,
        List.count_erase_self, h1]
    · have hv := ih v
      simp [completeStep, finishDownload, alookup_aupdate_ne _ _ _ _ hvu,
        List.count_erase_of_ne hvu]
      exact hv

/-- Iterating n requests for the same URL (concurrent requesters polling). -/
def requestIter (s : FState) (u : String) : Nat → FState
  | 0 => s
  | n + 1 => (requestStep (requestIter s u n) u).1

theorem requestStep_pending {s : FState} {u : String}
    (h : alookup s.cache u = some Poll.pending) : requestStep s u = (s, Poll.pending) := by
  simp [requestStep, process, h]

/-- C1 claim theorem. For every reachable worker state: at most one in-flight
download task exists per distinct URL; a request for a URL whose entry is
pending returns pending and changes nothing (no duplicate task); a request for
an already-resolved URL returns the cached path and changes nothing; a request
for a never-seen URL returns pending and spawns exactly one download task, and
any number of further requests for that URL spawn nothing more. -/
theorem fetcher_dedup_per_url (s : FState) (u : String) (hs : Reach s) :
    s.inflight.count u ≤ 1
    ∧ (alookup s.cache u = some Poll.pending → requestStep s u = (s, Poll.pending))
    ∧ (∀ p, alookup s.cache u = some (Poll.ready (Except.ok p)) →
        requestStep s u = (s, Poll.ready (Except.ok p)))
    ∧ (alookup s.cache u = none →
        (requestStep s u).1.inflight = s.inflight ++ [u]
        ∧ (requestStep s u).2 = Poll.pending
        ∧ ∀ n : Nat, requestIter s u (n + 1) = (requestStep s u).1) := by
  have hinv := reach_finv hs
  refine ⟨?_, ?_, ?_, ?_⟩
  · have := hinv u
    by_cases h : alookup s.cache u = some Poll.pending <;> simp [h] at this <;> omega
  · exact requestStep_pending
  · intro p h; simp [requestStep, process, h]
  · intro h
    refine ⟨by simp [requestStep, process, h], by simp [requestStep, process, h], ?_⟩
    have hpend : alookup (requestStep s u).1.cache u = some Poll.pending := by
      simp [requestStep, process, h, alookup_append_of_none _ h, alookup]
    intro n
    induction n with
    | zero => rfl
    | succ n ih =>
      show (requestStep (requestIter s u (n + 1)) u).1 = (requestStep s u).1
      rw [ih, requestStep_pending hpend]

/-- C1 witness: starting from the initial worker state, the never-seen URL
branch spawns exactly one task however many times the URL is re-requested. -/
theorem fetcher_dedup_per_url_witness :
    (⟨[], []⟩ : FState).inflight.count "u" ≤ 1
    ∧ (alookup (⟨[], []⟩ : FState).cache "u" = some Poll.pending →
        requestStep ⟨[], []⟩ "u" = (⟨[], []⟩, Poll.pending))
    ∧ (∀ p, alookup (⟨[], []⟩ : FState).cache "u" = some (Poll.ready (Except.ok p)) →
        requestStep ⟨[], []⟩ "u" = (⟨[], []⟩, Poll.ready (Except.ok p)))
    ∧ (alookup (⟨[], []⟩ : FState).cache "u" = none →
        (requestStep ⟨[], []⟩ "u").1.inflight = ([] : List String) ++ ["u"]
        ∧ (requestStep ⟨[], []⟩ "u").2 = Poll.pending
        ∧ ∀ n : Nat, requestIter ⟨[], []⟩ "u" (n + 1) = (requestStep ⟨[], []⟩ "u").1) :=
  fetcher_dedup_per_url ⟨[], []⟩ "u" Reach.init

/-- C2 counterexample: re-submitting a URL whose download previously failed
does NOT make a fresh download attempt on this call: fn process removes the
failed entry and forwards the error, but spawns no task (spawned = false). -/
theorem failed_retry_this_call_counterexample :
    (process [("u", Poll.ready (Except.error "boom"))] "u").2.2 = false
    ∧ (requestStep ⟨[("u", Poll.ready (Except.error "boom"))], []⟩ "u").1.inflight = [] := by
  constructor <;> rfl

/-- C2 amended claim theorem. Submitting a URL whose previous download failed
evicts the failed entry and returns the recorded error, spawning nothing on
this call; the next submission of the same URL then finds no entry and
triggers exactly one new download attempt (re-inserting a pending entry), and
submissions after that spawn nothing further. So a failed locator is never
permanently poisoned. -/
theorem failed_entry_evict_then_retry (cache : DownloadCache) (u e : String)
    (h : alookup cache u = some (Poll.ready (Except.error e))) :
    process cache u = (Poll.ready (Except.error e), aremove cache u, false)
    ∧ alookup (aremove cache u) u = none
    ∧ (process (aremove cache u) u).2.2 = true
    ∧ process (aremove cache u) u =
        (Poll.pending, aremove cache u ++ [(u, Poll.pending)], true)
    ∧ process (aremove cache u ++ [(u, Poll.pending)]) u =
        (Poll.pending, aremove cache u ++ [(u, Poll.pending)], false) := by
  have hrm : alookup (aremove cache u) u = none := alookup_aremove_self cache u
  have happ : alookup (aremove cache u ++ [(u, Poll.pending)]) u = some Poll.pending := by
    rw [alookup_append_of_none _ hrm]; simp [alookup]
  exact ⟨by simp [process, h], hrm, by simp [process, hrm], by simp [process, hrm],
    by simp [process, happ]⟩

/-- A concrete download cache holding one failed entry, for the C2 witness. -/
def exFailedCache : DownloadCache := [("u", Poll.ready (Except.error "boom"))]

/-- C2 amended witness at a concrete failed cache entry. -/
theorem failed_entry_evict_then_retry_witness :
    process exFailedCache "u" =
        (Poll.ready (Except.error "boom"), aremove exFailedCache "u", false)
    ∧ alookup (aremove exFailedCache "u") "u" = none
    ∧ (process (aremove exFailedCache "u") "u").2.2 = true
    ∧ process (aremove exFailedCache "u") "u" =
        (Poll.pending, aremove exFailedCache "u" ++ [("u", Poll.pending)], true)
    ∧ process (aremove exFailedCache "u" ++ [("u", Poll.pending)]) "u" =
        (Poll.pending, aremove exFailedCache "u" ++ [("u", Poll.pending)], false) :=
  failed_entry_evict_then_retry exFailedCache "u" "boom" rfl

/-- Models Fetcher::poll_fetch including the channel rendezvous with the worker
thread. `workerAlive` states whether the background thread still holds the
channel endpoints. flume's send/recv on a disconnected bounded channel return
an error immediately (they never block), and poll_fetch unwraps both with
.expect; a panic is modelled as Except.error carrying the panic message, while
a normal return is Except.ok with the worker's response. -/
def pollFetch (workerAlive : Bool) (resp : Poll (Except String String)) :
    Except String (Poll (Except String String)) :=
  if workerAlive then Except.ok resp
  else Except.error "failed to send request, receiver dropped"

/-- C3 claim theorem (records the divergence). When the worker thread has
terminated, poll_fetch does complete (it never hangs, since the disconnected
channel fails immediately), but it completes by PANICKING through .expect
rather than by returning any result value to the caller -- contradicting the
claim (and the method's own documentation) that the caller observes
Poll::Ready(Err(_)). -/
theorem poll_fetch_dead_worker_panics (resp : Poll (Except String String)) :
    pollFetch false resp = Except.error "failed to send request, receiver dropped"
    ∧ ∀ r : Poll (Except String String), pollFetch false resp ≠ Except.ok r := by
  refine ⟨rfl, ?_⟩
  intro r h
  simp [pollFetch] at h

-- ## Widget Cache (src/app/widget.rs)

/-- Models sdl2 Color as an RGB triple. -/
abbrev Color : Type := Nat × Nat × Nat

def Color.WHITE : Color := (255, 255, 255)

/-- Mirrors struct Properties in widget.rs. -/
structure Properties where
  origin : Int × Int
  bounds : Nat × Nat
  color : Color
  border : Option (Color × Nat)
  hidden : Bool
  invalidated : Bool
deriving DecidableEq

/-- Mirrors impl Default for Properties. -/
def Properties.default : Properties :=
  { origin := (0, 0), bounds := (0, 0), color := Color.WHITE, border := none,
    hidden := false, invalidated := true }

/-- Mirrors struct WidgetTexture: a lazily created render target tagged with
its dimensions. Concrete textures are modelled as allocation ids handed out by
a counter. -/
structure WidgetTexture where
  texture : Option Nat
  width : Nat
  height : Nat
deriving DecidableEq

def WidgetTexture.default : WidgetTexture :=
  { texture := none, width := 0, height := 0 }

/-- Mirrors WidgetTexture::create_or_resize. `nextTex` is the allocator state
of the TextureCreator; returns (new texture state, whether a fresh texture was
created, new allocator state). Texture creation is assumed to succeed (the Err
case is a graphics-driver failure outside the model). -/
def WidgetTexture.create_or_resize (t : WidgetTexture) (nextTex width height : Nat) :
    WidgetTexture × Bool × Nat :=
  if t.texture = none ∨ t.width ≠ width ∨ t.height ≠ height then
    ({ texture := some nextTex, width := width, height := height }, true, nextTex + 1)
  else (t, false, nextTex)

/-- C8 claim theorem: when a texture is currently held, create_or_resize
recreates it if and only if the requested dimensions differ from the held
texture's dimensions; when they match, the very same texture state is returned
and the allocator is untouched (no allocation); when they differ, exactly one
fresh texture with the requested dimensions is allocated. -/
theorem create_or_resize_spec (t : WidgetTexture) (nextTex width height tid : Nat)
    (h : t.texture = some tid) :
    ((t.create_or_resize nextTex width height).2.1 = true ↔
      (t.width ≠ width ∨ t.height ≠ height))
    ∧ (t.width = width → t.height = height →
        t.create_or_resize nextTex width height = (t, false, nextTex))
    ∧ ((t.width ≠ width ∨ t.height ≠ height) →
        t.create_or_resize nextTex width height =
          ({ texture := some nextTex, width := width, height := height },
            true, nextTex + 1)) := by
  refine ⟨?_, ?_, ?_⟩
  · by_cases hw : t.width = width <;> by_cases hh : t.height = height <;>
      simp [WidgetTexture.create_or_resize, h, hw, hh]
  · intro hw hh; simp [WidgetTexture.create_or_resize, h, hw, hh]
  · intro hd
    rcases hd with hw | hh
    · simp [WidgetTexture.create_or_resize, hw]
    · simp [WidgetTexture.create_or_resize, hh]

/-- C8 witness at a concretely held 10x20 texture. -/
theorem create_or_resize_spec_witness :
    (((⟨some 7, 10, 20⟩ : WidgetTexture).create_or_resize 8 10 21).2.1 = true ↔
      ((10 : Nat) ≠ 10 ∨ (20 : Nat) ≠ 21))
    ∧ ((10 : Nat) = 10 → (20 : Nat) = 21 →
        (⟨some 7, 10, 20⟩ : WidgetTexture).create_or_resize 8 10 21 =
          (⟨some 7, 10, 20⟩, false, 8))
    ∧ (((10 : Nat) ≠ 10 ∨ (20 : Nat) ≠ 21) →
        (⟨some 7, 10, 20⟩ : WidgetTexture).create_or_resize 8 10 21 =
          (⟨some 8, 10, 21⟩, true, 9)) :=
  create_or_resize_spec ⟨some 7, 10, 20⟩ 8 10 21 7 rfl

/-- Mirrors struct CacheEntry: the widget (represented by its common
Properties; the kind-specific payload does not affect tree structure,
invalidation or traversal), its render target, its parent id and ordered child
list. Widget ids (WidgetId, a u32 newtype) are modelled as Nat. -/
structure CacheEntry where
  widget : Properties
  texture : WidgetTexture
  parent : Nat
  children : List Nat
deriving DecidableEq

def CacheEntry.new (widget : Properties) (parent : Nat) : CacheEntry :=
  { widget := widget, texture := WidgetTexture.default, parent := parent,
    children := [] }

/-- Mirrors struct Widgets: the arena of cached widgets. -/
structure Widgets where
  cache : List (Nat × CacheEntry)
  next_id : Nat
deriving DecidableEq

/-- Mirrors Widgets::new: the root widget gets id 0, invalidated for initial
drawing, and ids start at 1. -/
def Widgets.new (root_widget : Properties) : Widgets :=
  { cache := [(0, CacheEntry.new { root_widget with invalidated := true } 0)],
    next_id := 1 }

/-- Mirrors Widgets::insert. Returns none when the parent is unknown (the
source panics there via .expect("parent always exists")). next_id is a u32 in
the source whose increment would panic on overflow in debug builds; it is
modelled as an unbounded Nat. -/
def Widgets.insert (w : Widgets) (widget : Properties) (parent : Nat) :
    Option (Widgets × Nat) :=
  match alookup w.cache parent with
  | none => none
  | some _ =>
    let id := w.next_id
    let cache1 := aupdate w.cache parent fun e => { e with children := e.children ++ [id] }
    some ({ cache :=
              cache1 ++ [(id, CacheEntry.new { widget with invalidated := true } parent)],
            next_id := w.next_id + 1 }, id)

/-- Applies f to the cache entry stored at `id` (helper modelling the RefCell
get_mut plus setter call sequences of the source). -/
def Widgets.modify (w : Widgets) (id : Nat) (f : CacheEntry → CacheEntry) : Widgets :=
  { w with cache := aupdate w.cache id f }

/-- The per-node effect of Widgets::translate: widget.set_origin(x + dx, y + dy),
whose setter also raises the invalidated flag. -/
def shiftEntry (dx dy : Int) (e : CacheEntry) : CacheEntry :=
  { e with widget := { e.widget with
      origin := (e.widget.origin.1 + dx, e.widget.origin.2 + dy),
      invalidated := true } }

/-- Mirrors Widgets::translate, recursion made explicit with fuel (the source
recurses directly; termination for insert-built caches is proved below).
Returns none when fuel runs out or a widget id is missing (get_mut panic). -/
def Widgets.translate : Nat → Widgets → Nat → Int → Int → Option Widgets
  | 0, _, _, _, _ => none
  | fuel + 1, w, id, dx, dy =>
    if dx = 0 ∧ dy = 0 then some w
    else
      match alookup w.cache id with
      | none => none
      | some e =>
        e.children.foldlM
          (fun acc c => if c ≠ id then Widgets.translate fuel acc c dx dy else some acc)
          (w.modify id (shiftEntry dx dy))

/-- State threaded through a render pass: the widget arena, the ids blitted to
the canvas so far (in order), the ids whose content was re-drawn
(Widget::draw called), and the texture allocator. Canvas clearing/presenting
and the pixel contents written by draw and the border loop are graphics
effects outside the model. -/
structure DrawState where
  w : Widgets
  blits : List Nat
  redraws : List Nat
  nextTex : Nat

/-- The non-recursive part of one draw_widget visit: a hidden widget is
skipped entirely; a visible widget has its texture created-or-resized to its
bounds, its content re-drawn (with border) only when invalidated, the texture
blitted to the canvas at its origin, and its invalidated flag cleared. -/
def renderNode (s : DrawState) (id : Nat) (e : CacheEntry) : DrawState :=
  if e.widget.hidden then s
  else
    { w := s.w.modify id fun e0 =>
        { e0 with
          texture := (e.texture.create_or_resize s.nextTex
            e.widget.bounds.1 e.widget.bounds.2).1,
          widget := { e0.widget with invalidated := false } },
      blits := s.blits ++ [id],
      redraws := if e.widget.invalidated then s.redraws ++ [id] else s.redraws,
      nextTex := (e.texture.create_or_resize s.nextTex
        e.widget.bounds.1 e.widget.bounds.2).2.2 }

/-- Mirrors Widgets::draw_widget with explicit fuel. Returns none when fuel
runs out or an id is missing from the cache (source unwrap panic). The hidden
block does not change the child list, so reading the children from the entry
fetched at the top matches the source reading them after the hidden block. -/
def Widgets.draw_widget : Nat → DrawState → Nat → Option DrawState
  | 0, _, _ => none
  | fuel + 1, s, id =>
    match alookup s.w.cache id with
    | none => none
    | some e =>
      e.children.foldlM
        (fun acc c => if c ≠ id then Widgets.draw_widget fuel acc c else some acc)
        (renderNode s id e)

/-- Mirrors Widgets::draw: a full render pass starting at the root. -/
def Widgets.draw (w : Widgets) (nextTex : Nat) : Option DrawState :=
  Widgets.draw_widget w.next_id ⟨w, [], [], nextTex⟩ 0

/-- The keys present in the arena. -/
def Widgets.keys (w : Widgets) : List Nat := w.cache.map Prod.fst

/-- All ids appearing in some child list of the arena. -/
def Widgets.childIds (w : Widgets) : List Nat :=
  (w.cache.map fun p => p.2.children).flatten

/-- Well-formedness of an arena, as established by Widgets::new and preserved
by Widgets::insert: keys are unique and below next_id, every child id is a key
strictly greater than its parent's key, no id is the child of two parents or
of one parent twice, the root id 0 is present, and every non-root key occurs
in some child list. -/
def Widgets.WF (w : Widgets) : Prop :=
  w.keys.Nodup
  ∧ (∀ p ∈ w.cache, p.1 < w.next_id)
  ∧ (∀ p ∈ w.cache, ∀ c ∈ p.2.children, p.1 < c ∧ c ∈ w.keys)
  ∧ w.childIds.Nodup
  ∧ 0 ∈ w.keys
  ∧ (∀ p ∈ w.cache, p.1 ≠ 0 → p.1 ∈ w.childIds)

instance (w : Widgets) : Decidable w.WF := by
  unfold Widgets.WF; infer_instance

/-- k lies in the subtree rooted at a: the closure of the child-edge relation
actually traversed by translate/draw_widget (including their self-loop guard). -/
inductive Widgets.Desc (w : Widgets) : Nat → Nat → Prop
  | refl (id : Nat) : Widgets.Desc w id id
  | step {id c k : Nat} (e : CacheEntry) : alookup w.cache id = some e →
      c ∈ e.children → c ≠ id → Widgets.Desc w c k → Widgets.Desc w id k

-- ## Arena bridge lemmas

theorem alookup_isSome_iff {κ α : Type} [DecidableEq κ] (l : List (κ × α)) (k : κ) :
    (alookup l k).isSome ↔ k ∈ l.map Prod.fst := by
  induction l with
  | nil => simp [alookup]
  | cons p rest ih =>
    by_cases hp : p.1 = k
    · simp [alookup, hp]
    · simp [alookup, hp, ih, Ne.symm hp]

theorem mem_of_alookup {κ α : Type} [DecidableEq κ] {l : List (κ × α)} {k : κ} {v : α}
    (h : alookup l k = some v) : (k, v) ∈ l := by
  induction l with
  | nil => simp [alookup] at h
  | cons p rest ih =>
    rcases p with ⟨pk, pv⟩
    by_cases hp : pk = k
    · subst hp
      simp [alookup] at h
      subst h
      exact List.mem_cons_self _ _
    · simp [alookup, hp] at h
      exact List.mem_cons_of_mem _ (ih h)

theorem alookup_of_mem_nodup {κ α : Type} [DecidableEq κ] {l : List (κ × α)} {k : κ}
    {v : α} (hnd : (l.map Prod.fst).Nodup) (h : (k, v) ∈ l) : alookup l k = some v := by
  induction l with
  | nil => simp at h
  | cons p rest ih =>
    rw [List.map_cons, List.nodup_cons] at hnd
    rcases List.mem_cons.mp h with he | hm
    · rw [← he]; simp [alookup]
    · have hk : p.1 ≠ k := by
        intro hpk
        exact absurd (List.mem_map_of_mem _ hm) (hpk ▸ hnd.1)
      simp [alookup, hk, ih hnd.2 hm]

theorem keys_aupdate {κ α : Type} [DecidableEq κ] (l : List (κ × α)) (k : κ)
    (f : α → α) : (aupdate l k f).map Prod.fst = l.map Prod.fst := by
  induction l with
  | nil => rfl
  | cons p rest ih =>
    show ((if p.1 = k then (p.1, f p.2) else p) :: aupdate rest k f).map Prod.fst = _
    by_cases hp : p.1 = k <;> simp [hp, ih]

-- ## Structural lemmas about well-formed arenas

theorem Widgets.WF.nodup_keys {w : Widgets} (hwf : w.WF) : w.keys.Nodup := hwf.1

theorem Widgets.WF.key_lt {w : Widgets} (hwf : w.WF) {k : Nat} (hk : k ∈ w.keys) :
    k < w.next_id := by
  have hk' : k ∈ w.cache.map Prod.fst := hk
  rcases List.mem_map.mp hk' with ⟨p, hp, hpk⟩
  exact hpk ▸ hwf.2.1 p hp

theorem Widgets.WF.child_gt {w : Widgets} (hwf : w.WF) {id : Nat} {e : CacheEntry}
    (he : alookup w.cache id = some e) {c : Nat} (hc : c ∈ e.children) : id < c :=
  (hwf.2.2.1 (id, e) (mem_of_alookup he) c hc).1

theorem Widgets.WF.child_mem {w : Widgets} (hwf : w.WF) {id : Nat} {e : CacheEntry}
    (he : alookup w.cache id = some e) {c : Nat} (hc : c ∈ e.children) : c ∈ w.keys :=
  (hwf.2.2.1 (id, e) (mem_of_alookup he) c hc).2

theorem mem_children_unique {l : List (Nat × CacheEntry)}
    (hnd : ((l.map fun p => p.2.children).flatten).Nodup) :
    ∀ {p₁ p₂ : Nat × CacheEntry} {k : Nat}, p₁ ∈ l → p₂ ∈ l →
      k ∈ p₁.2.children → k ∈ p₂.2.children → p₁ = p₂ := by
  induction l with
  | nil =>
    intro p₁ p₂ k h₁ _ _ _
    simp at h₁
  | cons q rest ih =>
    intro p₁ p₂ k h₁ h₂ hk₁ hk₂
    rw [List.map_cons, List.flatten_cons, List.nodup_append] at hnd
    rcases List.mem_cons.mp h₁ with e₁ | m₁ <;> rcases List.mem_cons.mp h₂ with e₂ | m₂
    · rw [e₁, e₂]
    · exfalso
      have hin : k ∈ (rest.map fun p => p.2.children).flatten :=
        List.mem_flatten.mpr ⟨p₂.2.children, List.mem_map_of_mem _ m₂, hk₂⟩
      exact hnd.2.2 (e₁ ▸ hk₁) hin
    · exfalso
      have hin : k ∈ (rest.map fun p => p.2.children).flatten :=
        List.mem_flatten.mpr ⟨p₁.2.children, List.mem_map_of_mem _ m₁, hk₁⟩
      exact hnd.2.2 (e₂ ▸ hk₂) hin
    · exact ih hnd.2.1 m₁ m₂ hk₁ hk₂

theorem Widgets.WF.parent_unique {w : Widgets} (hwf : w.WF) {p₁ p₂ : Nat}
    {e₁ e₂ : CacheEntry} {k : Nat} (h₁ : alookup w.cache p₁ = some e₁)
    (h₂ : alookup w.cache p₂ = some e₂) (hk₁ : k ∈ e₁.children)
    (hk₂ : k ∈ e₂.children) : p₁ = p₂ :=
  congrArg Prod.fst
    (mem_children_unique hwf.2.2.2.1 (mem_of_alookup h₁) (mem_of_alookup h₂) hk₁ hk₂)

theorem Widgets.WF.children_nodup {w : Widgets} (hwf : w.WF) {id : Nat} {e : CacheEntry}
    (he : alookup w.cache id = some e) : e.children.Nodup :=
  (List.nodup_flatten.mp hwf.2.2.2.1).1 e.children
    (List.mem_map_of_mem _ (mem_of_alookup he))

theorem Widgets.Desc.le {w : Widgets} (hwf : w.WF) {a k : Nat} (h : w.Desc a k) :
    a ≤ k := by
  induction h with
  | refl => exact le_refl _
  | step e he hc _ _ ih => exact le_of_lt (lt_of_lt_of_le (hwf.child_gt he hc) ih)

theorem Widgets.Desc.trans {w : Widgets} {a b c : Nat} (h₁ : w.Desc a b) :
    w.Desc b c → w.Desc a c := by
  induction h₁ with
  | refl => exact fun h => h
  | step e he hc hne _ ih => exact fun h₂ => Widgets.Desc.step e he hc hne (ih h₂)

theorem Widgets.Desc.last_step {w : Widgets} {a k : Nat} (h : w.Desc a k) :
    a ≠ k → ∃ p e, w.Desc a p ∧ alookup w.cache p = some e ∧ k ∈ e.children ∧ k ≠ p := by
  induction h with
  | refl => intro hne; exact absurd rfl hne
  | @step id c k e he hc hcne hd ih =>
    intro _
    by_cases hck : c = k
    · subst hck
      exact ⟨id, e, Widgets.Desc.refl id, he, hc, hcne⟩
    · rcases ih hck with ⟨p, e2, hdp, hlp, hkp, hknep⟩
      exact ⟨p, e2, Widgets.Desc.step e he hc hcne hdp, hlp, hkp, hknep⟩

theorem Widgets.Desc.total {w : Widgets} (hwf : w.WF) :
    ∀ k a b, w.Desc a k → w.Desc b k → w.Desc a b ∨ w.Desc b a := by
  intro k
  induction k using Nat.strong_induction_on with
  | _ k ih =>
    intro a b ha hb
    by_cases hak : a = k
    · subst hak; exact Or.inr hb
    · by_cases hbk : b = k
      · subst hbk; exact Or.inl ha
      · rcases ha.last_step hak with ⟨p₁, e₁, hap, hl₁, hk₁, _⟩
        rcases hb.last_step hbk with ⟨p₂, e₂, hbp, hl₂, hk₂, _⟩
        have hpp : p₁ = p₂ := hwf.parent_unique hl₁ hl₂ hk₁ hk₂
        subst hpp
        exact ih p₁ (hwf.child_gt hl₁ hk₁) a b hap hbp

theorem Widgets.Desc.sibling_aux {w : Widgets} (hwf : w.WF) {n c₁ c₂ : Nat}
    {e : CacheEntry} (he : alookup w.cache n = some e) (h₁ : c₁ ∈ e.children)
    (hne : c₁ ≠ c₂) (h₂ : c₂ ∈ e.children) (hd : w.Desc c₁ c₂) : False := by
  rcases hd.last_step hne with ⟨q, e2, hdq, hlq, hkq, _⟩
  have hqn : q = n := hwf.parent_unique hlq he hkq h₂
  have hle : c₁ ≤ q := hdq.le hwf
  have hlt : n < c₁ := hwf.child_gt he h₁
  omega

theorem Widgets.Desc.sibling_disjoint {w : Widgets} (hwf : w.WF) {n c₁ c₂ : Nat}
    {e : CacheEntry} (he : alookup w.cache n = some e) (h₁ : c₁ ∈ e.children)
    (h₂ : c₂ ∈ e.children) (hne : c₁ ≠ c₂) {k : Nat} (hd₁ : w.Desc c₁ k)
    (hd₂ : w.Desc c₂ k) : False := by
  rcases Widgets.Desc.total hwf k c₁ c₂ hd₁ hd₂ with h | h
  · exact Widgets.Desc.sibling_aux hwf he h₁ hne h₂ h
  · exact Widgets.Desc.sibling_aux hwf he h₂ (Ne.symm hne) h₁ h

theorem Widgets.Desc.not_into_parent {w : Widgets} (hwf : w.WF) {id c : Nat}
    {e : CacheEntry} (he : alookup w.cache id = some e) (hc : c ∈ e.children)
    (hd : w.Desc c id) : False := by
  have h1 := hd.le hwf
  have h2 := hwf.child_gt he hc
  omega

theorem Widgets.Desc.iff_children {w : Widgets} {id k : Nat} {e : CacheEntry}
    (he : alookup w.cache id = some e) :
    w.Desc id k ↔ k = id ∨ ∃ c ∈ e.children, c ≠ id ∧ w.Desc c k := by
  constructor
  · intro h
    cases h with
    | refl => exact Or.inl rfl
    | @step _ c _ e2 he2 hc hne hd =>
      have hee : e = e2 := Option.some.inj (he.symm.trans he2)
      exact Or.inr ⟨c, by rw [hee]; exact hc, hne, hd⟩
  · rintro (rfl | ⟨c, hc, hne, hd⟩)
    · exact Widgets.Desc.refl _
    · exact Widgets.Desc.step e he hc hne hd

theorem Widgets.WF.all_desc {w : Widgets} (hwf : w.WF) :
    ∀ k, k ∈ w.keys → w.Desc 0 k := by
  intro k
  induction k using Nat.strong_induction_on with
  | _ k ih =>
    intro hk
    by_cases h0 : k = 0
    · subst h0; exact Widgets.Desc.refl 0
    · have hk' : k ∈ w.cache.map Prod.fst := hk
      rcases List.mem_map.mp hk' with ⟨p, hp, hpk⟩
      have hpne : p.1 ≠ 0 := by rw [hpk]; exact h0
      have hcid : k ∈ w.childIds := hpk ▸ hwf.2.2.2.2.2 p hp hpne
      rcases List.mem_flatten.mp hcid with ⟨l, hl, hkl⟩
      rcases List.mem_map.mp hl with ⟨⟨qk, qe⟩, hq, hql⟩
      rw [← hql] at hkl
      have hlq : alookup w.cache qk = some qe := alookup_of_mem_nodup hwf.1 hq
      have hqlt : qk < k := hwf.child_gt hlq hkl
      have hqmem : qk ∈ w.keys := List.mem_map_of_mem _ hq
      exact (ih qk hqlt hqmem).trans
        (Widgets.Desc.step qe hlq hkl (by omega) (Widgets.Desc.refl k))

-- ## Exact effect of Widgets::translate on well-formed arenas

theorem alookup_modify_self (w : Widgets) (id : Nat) (f : CacheEntry → CacheEntry) :
    alookup (w.modify id f).cache id = (alookup w.cache id).map f :=
  alookup_aupdate_self _ _ _

theorem alookup_modify_ne (w : Widgets) (id k : Nat) (f : CacheEntry → CacheEntry)
    (h : k ≠ id) : alookup (w.modify id f).cache k = alookup w.cache k :=
  alookup_aupdate_ne _ _ _ _ h

/-- Characterization of a successful translate run, relative to a fixed
well-formed ambient arena w0: if the running arena agrees with w0 except that
the entries in S are already shifted, and the subtree of id is disjoint from
S, then afterwards exactly S plus the subtree of id is shifted (each subtree
node's origin moved by exactly (dx, dy) once, and its invalidated flag set). -/
theorem translate_char (dx dy : Int) (hnz : ¬(dx = 0 ∧ dy = 0)) (w0 : Widgets)
    (hwf : w0.WF) :
    ∀ fuel : Nat, ∀ (S : Nat → Prop) (w : Widgets) (id : Nat) (w' : Widgets),
      Widgets.translate fuel w id dx dy = some w' →
      (∀ k, S k → alookup w.cache k = (alookup w0.cache k).map (shiftEntry dx dy)) →
      (∀ k, ¬S k → alookup w.cache k = alookup w0.cache k) →
      (∀ k, w0.Desc id k → ¬S k) →
      w.next_id = w0.next_id →
      w'.next_id = w0.next_id
      ∧ (∀ k, (S k ∨ w0.Desc id k) →
          alookup w'.cache k = (alookup w0.cache k).map (shiftEntry dx dy))
      ∧ (∀ k, ¬(S k ∨ w0.Desc id k) → alookup w'.cache k = alookup w0.cache k) := by
  intro fuel
  induction fuel with
  | zero =>
    intro S w id w' hrun
    rw [Widgets.translate] at hrun
    exact absurd hrun (by simp)
  | succ fuel ih =>
    intro S w id w' hrun hS hNS hdisj hnext
    have hSid : ¬S id := hdisj id (Widgets.Desc.refl id)
    have hw_id : alookup w.cache id = alookup w0.cache id := hNS id hSid
    rcases he0 : alookup w0.cache id with _ | e0
    · simp only [Widgets.translate, if_neg hnz, hw_id, he0] at hrun
      exact Option.noConfusion hrun
    · simp only [Widgets.translate, if_neg hnz, hw_id, he0] at hrun
      have hwe : alookup w.cache id = some e0 := hw_id.trans he0
      have hT1 : ∀ k, (S k ∨ k = id) →
          alookup (w.modify id (shiftEntry dx dy)).cache k
            = (alookup w0.cache k).map (shiftEntry dx dy) := by
        intro k hk
        rcases hk with hk | rfl
        · have hkid : k ≠ id := fun h => hSid (h ▸ hk)
          rw [alookup_modify_ne _ _ _ _ hkid]
          exact hS k hk
        · rw [alookup_modify_self, hwe, he0]
      have hNT1 : ∀ k, ¬(S k ∨ k = id) →
          alookup (w.modify id (shiftEntry dx dy)).cache k = alookup w0.cache k := by
        intro k hk
        push_neg at hk
        rw [alookup_modify_ne _ _ _ _ hk.2]
        exact hNS k hk.1
      have hdis1 : ∀ c ∈ e0.children, c ≠ id → ∀ k, w0.Desc c k → ¬(S k ∨ k = id) := by
        intro c hc hcid k hdk
        rintro (hSk | rfl)
        · exact hdisj k (Widgets.Desc.step e0 he0 hc hcid hdk) hSk
        · exact Widgets.Desc.not_into_parent hwf he0 hc hdk
      have hnd : e0.children.Nodup := hwf.children_nodup he0
      have fold_spec :
          ∀ cs : List Nat, (∀ c ∈ cs, c ∈ e0.children) → cs.Nodup →
          ∀ (T : Nat → Prop) (acc res : Widgets),
          List.foldlM (fun acc c => if c ≠ id then Widgets.translate fuel acc c dx dy
            else some acc) acc cs = some res →
          (∀ k, T k → alookup acc.cache k = (alookup w0.cache k).map (shiftEntry dx dy)) →
          (∀ k, ¬T k → alookup acc.cache k = alookup w0.cache k) →
          (∀ c ∈ cs, c ≠ id → ∀ k, w0.Desc c k → ¬T k) →
          acc.next_id = w0.next_id →
          res.next_id = w0.next_id
          ∧ (∀ k, (T k ∨ ∃ c ∈ cs, c ≠ id ∧ w0.Desc c k) →
              alookup res.cache k = (alookup w0.cache k).map (shiftEntry dx dy))
          ∧ (∀ k, ¬(T k ∨ ∃ c ∈ cs, c ≠ id ∧ w0.Desc c k) →
              alookup res.cache k = alookup w0.cache k) := by
        intro cs
        induction cs with
        | nil =>
          intro _ _ T acc res hres hT hNT _ hnid
          have hacc : acc = res := by simpa using hres
          subst hacc
          refine ⟨hnid, ?_, ?_⟩
          · intro k hk
            rcases hk with hk | ⟨c, hc, _⟩
            · exact hT k hk
            · simp at hc
          · intro k hk
            exact hNT k fun h => hk (Or.inl h)
        | cons c cs ihc =>
          intro hmem hndc T acc res hres hT hNT hdis hnid
          rw [List.foldlM_cons] at hres
          by_cases hcid : c = id
          · have hres2 : List.foldlM (fun acc c => if c ≠ id then
                Widgets.translate fuel acc c dx dy else some acc) acc cs = some res := by
              simpa [hcid] using hres
            have htail := ihc (fun c2 hc2 => hmem c2 (List.mem_cons_of_mem _ hc2))
              (List.nodup_cons.mp hndc).2 T acc res hres2 hT hNT
              (fun c2 hc2 hne2 k hk => hdis c2 (List.mem_cons_of_mem _ hc2) hne2 k hk) hnid
            refine ⟨htail.1, ?_, ?_⟩
            · intro k hk
              apply htail.2.1 k
              rcases hk with hk | ⟨c2, hc2, hne2, hd2⟩
              · exact Or.inl hk
              · rcases List.mem_cons.mp hc2 with rfl | hm
                · exact absurd hcid hne2
                · exact Or.inr ⟨c2, hm, hne2, hd2⟩
            · intro k hk
              apply htail.2.2 k
              rintro (hk2 | ⟨c2, hm, hne2, hd2⟩)
              · exact hk (Or.inl hk2)
              · exact hk (Or.inr ⟨c2, List.mem_cons_of_mem _ hm, hne2, hd2⟩)
          · rw [if_pos hcid] at hres
            rcases hmid : Widgets.translate fuel acc c dx dy with _ | mid
            · rw [hmid] at hres; simp at hres
            · rw [hmid] at hres
              have hres2 : List.foldlM (fun acc c => if c ≠ id then
                  Widgets.translate fuel acc c dx dy else some acc) mid cs = some res := hres
              have hcmem : c ∈ e0.children := hmem c (List.mem_cons_self _ _)
              have hdisc : ∀ k, w0.Desc c k → ¬T k := fun k hk =>
                hdis c (List.mem_cons_self _ _) hcid k hk
              have hstep := ih T acc c mid hmid hT hNT hdisc hnid
              have hcnotin : c ∉ cs := (List.nodup_cons.mp hndc).1
              have hdis2 : ∀ c2 ∈ cs, c2 ≠ id → ∀ k, w0.Desc c2 k →
                  ¬(T k ∨ w0.Desc c k) := by
                intro c2 hc2 hne2 k hd2
                rintro (hTk | hdc)
                · exact hdis c2 (List.mem_cons_of_mem _ hc2) hne2 k hd2 hTk
                · have hcc2 : c ≠ c2 := fun h => hcnotin (h ▸ hc2)
                  exact Widgets.Desc.sibling_disjoint hwf he0
                    (hmem c2 (List.mem_cons_of_mem _ hc2)) hcmem (Ne.symm hcc2) hd2 hdc
              have htail := ihc (fun c2 hc2 => hmem c2 (List.mem_cons_of_mem _ hc2))
                (List.nodup_cons.mp hndc).2 (fun k => T k ∨ w0.Desc c k) mid res hres2
                hstep.2.1 hstep.2.2 hdis2 hstep.1
              refine ⟨htail.1, ?_, ?_⟩
              · intro k hk
                apply htail.2.1 k
                rcases hk with hk | ⟨c2, hc2, hne2, hd2⟩
                · exact Or.inl (Or.inl hk)
                · rcases List.mem_cons.mp hc2 with rfl | hm
                  · exact Or.inl (Or.inr hd2)
                  · exact Or.inr ⟨c2, hm, hne2, hd2⟩
              · intro k hk
                apply htail.2.2 k
                rintro ((hk2 | hdc) | ⟨c2, hm, hne2, hd2⟩)
                · exact hk (Or.inl hk2)
                · exact hk (Or.inr ⟨c, List.mem_cons_self _ _, hcid, hdc⟩)
                · exact hk (Or.inr ⟨c2, List.mem_cons_of_mem _ hm, hne2, hd2⟩)
      have hmain := fold_spec e0.children (fun c hc => hc) hnd (fun k => S k ∨ k = id)
        (w.modify id (shiftEntry dx dy)) w' hrun hT1 hNT1 hdis1 hnext
      refine ⟨hmain.1, ?_, ?_⟩
      · intro k hk
        apply hmain.2.1 k
        rcases hk with hk | hdk
        · exact Or.inl (Or.inl hk)
        · rcases (Widgets.Desc.iff_children he0).mp hdk with rfl | ⟨c, hc, hne, hd⟩
          · exact Or.inl (Or.inr rfl)
          · exact Or.inr ⟨c, hc, hne, hd⟩
      · intro k hk
        apply hmain.2.2 k
        rintro ((hSk | rfl) | ⟨c, hc, hne, hd⟩)
        · exact hk (Or.inl hSk)
        · exact hk (Or.inr (Widgets.Desc.refl _))
        · exact hk (Or.inr (Widgets.Desc.step e0 he0 hc hne hd))

/-- A translate call on a well-formed arena succeeds (never runs out of fuel)
when given fuel next_id - id: child ids strictly increase along edges and stay
below next_id, so the recursion depth is bounded. -/
theorem translate_some (dx dy : Int) (hnz : ¬(dx = 0 ∧ dy = 0)) (w0 : Widgets)
    (hwf : w0.WF) :
    ∀ fuel : Nat, ∀ (S : Nat → Prop) (w : Widgets) (id : Nat),
      (∀ k, S k → alookup w.cache k = (alookup w0.cache k).map (shiftEntry dx dy)) →
      (∀ k, ¬S k → alookup w.cache k = alookup w0.cache k) →
      (∀ k, w0.Desc id k → ¬S k) →
      w.next_id = w0.next_id →
      id ∈ w0.keys →
      w0.next_id - id ≤ fuel →
      ∃ w', Widgets.translate fuel w id dx dy = some w' := by
  intro fuel
  induction fuel with
  | zero =>
    intro S w id _ _ _ _ hid hfuel
    have := hwf.key_lt hid
    omega
  | succ fuel ih =>
    intro S w id hS hNS hdisj hnext hid hfuel
    have hSid : ¬S id := hdisj id (Widgets.Desc.refl id)
    have hw_id : alookup w.cache id = alookup w0.cache id := hNS id hSid
    have hsome : (alookup w0.cache id).isSome := by
      rw [alookup_isSome_iff]
      exact hid
    rcases he0 : alookup w0.cache id with _ | e0
    · rw [he0] at hsome; simp at hsome
    · have hwe : alookup w.cache id = some e0 := hw_id.trans he0
      have hT1 : ∀ k, (S k ∨ k = id) →
          alookup (w.modify id (shiftEntry dx dy)).cache k
            = (alookup w0.cache k).map (shiftEntry dx dy) := by
        intro k hk
        rcases hk with hk | rfl
        · have hkid : k ≠ id := fun h => hSid (h ▸ hk)
          rw [alookup_modify_ne _ _ _ _ hkid]
          exact hS k hk
        · rw [alookup_modify_self, hwe, he0]
      have hNT1 : ∀ k, ¬(S k ∨ k = id) →
          alookup (w.modify id (shiftEntry dx dy)).cache k = alookup w0.cache k := by
        intro k hk
        push_neg at hk
        rw [alookup_modify_ne _ _ _ _ hk.2]
        exact hNS k hk.1
      have hdis1 : ∀ c ∈ e0.children, c ≠ id → ∀ k, w0.Desc c k → ¬(S k ∨ k = id) := by
        intro c hc hcid k hdk
        rintro (hSk | rfl)
        · exact hdisj k (Widgets.Desc.step e0 he0 hc hcid hdk) hSk
        · exact Widgets.Desc.not_into_parent hwf he0 hc hdk
      have hnd : e0.children.Nodup := hwf.children_nodup he0
      have fold_some :
          ∀ cs : List Nat, (∀ c ∈ cs, c ∈ e0.children) → cs.Nodup →
          ∀ (T : Nat → Prop) (acc : Widgets),
          (∀ k, T k → alookup acc.cache k = (alookup w0.cache k).map (shiftEntry dx dy)) →
          (∀ k, ¬T k → alookup acc.cache k = alookup w0.cache k) →
          (∀ c ∈ cs, c ≠ id → ∀ k, w0.Desc c k → ¬T k) →
          acc.next_id = w0.next_id →
          ∃ res, List.foldlM (fun acc c => if c ≠ id then Widgets.translate fuel acc c dx dy
            else some acc) acc cs = some res := by
        intro cs
        induction cs with
        | nil =>
          intro _ _ T acc _ _ _ _
          exact ⟨acc, rfl⟩
        | cons c cs ihc =>
          intro hmem hndc T acc hT hNT hdis hnid
          by_cases hcid : c = id
          · rcases ihc (fun c2 hc2 => hmem c2 (List.mem_cons_of_mem _ hc2))
              (List.nodup_cons.mp hndc).2 T acc hT hNT
              (fun c2 hc2 hne2 k hk => hdis c2 (List.mem_cons_of_mem _ hc2) hne2 k hk)
              hnid with ⟨res, hres⟩
            refine ⟨res, ?_⟩
            rw [List.foldlM_cons, if_neg (by simp [hcid])]
            exact hres
          · have hcmem : c ∈ e0.children := hmem c (List.mem_cons_self _ _)
            have hckey : c ∈ w0.keys := hwf.child_mem he0 hcmem
            have hcgt : id < c := hwf.child_gt he0 hcmem
            have hfc : w0.next_id - c ≤ fuel := by omega
            have hdisc : ∀ k, w0.Desc c k → ¬T k := fun k hk =>
              hdis c (List.mem_cons_self _ _) hcid k hk
            rcases ih T acc c hT hNT hdisc hnid hckey hfc with ⟨mid, hmid⟩
            have hchar := translate_char dx dy hnz w0 hwf fuel T acc c mid hmid
              hT hNT hdisc hnid
            have hcnotin : c ∉ cs := (List.nodup_cons.mp hndc).1
            have hdis2 : ∀ c2 ∈ cs, c2 ≠ id → ∀ k, w0.Desc c2 k →
                ¬(T k ∨ w0.Desc c k) := by
              intro c2 hc2 hne2 k hd2
              rintro (hTk | hdc)
              · exact hdis c2 (List.mem_cons_of_mem _ hc2) hne2 k hd2 hTk
              · have hcc2 : c ≠ c2 := fun h => hcnotin (h ▸ hc2)
                exact Widgets.Desc.sibling_disjoint hwf he0
                  (hmem c2 (List.mem_cons_of_mem _ hc2)) hcmem (Ne.symm hcc2) hd2 hdc
            rcases ihc (fun c2 hc2 => hmem c2 (List.mem_cons_of_mem _ hc2))
              (List.nodup_cons.mp hndc).2 (fun k => T k ∨ w0.Desc c k) mid
              hchar.2.1 hchar.2.2 hdis2 hchar.1 with ⟨res, hres⟩
            refine ⟨res, ?_⟩
            rw [List.foldlM_cons, if_pos hcid, hmid]
            exact hres
      rcases fold_some e0.children (fun c hc => hc) hnd (fun k => S k ∨ k = id)
        (w.modify id (shiftEntry dx dy)) hT1 hNT1 hdis1 hnext with ⟨res, hres⟩
      refine ⟨res, ?_⟩
      simp only [Widgets.translate, if_neg hnz, hw_id, he0]
      exact hres

/-- C5 claim theorem: translate(id, dx, dy) on a well-formed arena terminates
and shifts the origin of id and of every transitive descendant by exactly
(dx, dy), setting exactly those nodes' invalidated flags, while every entry
outside the subtree (widget, texture, parent, children) is left wholly
unchanged; and translate(id, 0, 0) short-circuits into a complete no-op that
returns the arena unchanged (no origin or invalidated flag changes). -/
theorem translate_spec (w : Widgets) (id : Nat) (dx dy : Int) (hwf : w.WF)
    (hid : id ∈ w.keys) :
    (¬(dx = 0 ∧ dy = 0) →
      ∃ w', Widgets.translate w.next_id w id dx dy = some w'
        ∧ w'.next_id = w.next_id
        ∧ (∀ k, w.Desc id k →
            alookup w'.cache k = (alookup w.cache k).map (shiftEntry dx dy))
        ∧ (∀ k, ¬w.Desc id k → alookup w'.cache k = alookup w.cache k))
    ∧ Widgets.translate w.next_id w id 0 0 = some w := by
  constructor
  · intro hnz
    rcases translate_some dx dy hnz w hwf w.next_id (fun _ => False) w id
      (fun k hk => hk.elim) (fun _ _ => rfl) (fun _ _ => not_false) rfl hid
      (Nat.sub_le _ _) with ⟨w', hw'⟩
    have hchar := translate_char dx dy hnz w hwf w.next_id (fun _ => False) w id w' hw'
      (fun k hk => hk.elim) (fun _ _ => rfl) (fun _ _ => not_false) rfl
    refine ⟨w', hw', hchar.1, fun k hk => hchar.2.1 k (Or.inr hk),
      fun k hk => hchar.2.2 k ?_⟩
    rintro (hf | hd)
    · exact hf
    · exact hk hd
  · obtain ⟨m, hm⟩ : ∃ m, w.next_id = m + 1 := by
      have h0 : (0 : Nat) ∈ w.keys := hwf.2.2.2.2.1
      have := hwf.key_lt h0
      exact ⟨w.next_id - 1, by omega⟩
    rw [hm]
    simp [Widgets.translate]

/-- A concrete three-node arena (root 0 with child 1, which has child 2),
as built by two inserts, used by the witnesses below. -/
def exW : Widgets :=
  { cache :=
      [(0, { widget := Properties.default, texture := WidgetTexture.default,
             parent := 0, children := [1] }),
       (1, { widget := Properties.default, texture := WidgetTexture.default,
             parent := 0, children := [2] }),
       (2, { widget := Properties.default, texture := WidgetTexture.default,
             parent := 1, children := [] })],
    next_id := 3 }

/-- C5 witness: translating the subtree rooted at id 1 of the concrete arena. -/
theorem translate_spec_witness :
    (¬((5 : Int) = 0 ∧ (-3 : Int) = 0) →
      ∃ w', Widgets.translate exW.next_id exW 1 5 (-3) = some w'
        ∧ w'.next_id = exW.next_id
        ∧ (∀ k, exW.Desc 1 k →
            alookup w'.cache k = (alookup exW.cache k).map (shiftEntry 5 (-3)))
        ∧ (∀ k, ¬exW.Desc 1 k → alookup w'.cache k = alookup exW.cache k))
    ∧ Widgets.translate exW.next_id exW 1 0 0 = some exW :=
  translate_spec exW 1 5 (-3) (by decide) (by decide)

-- ## Widgets::new and Widgets::insert establish and preserve well-formedness

theorem aupdate_cons {κ α : Type} [DecidableEq κ] (p : κ × α) (l : List (κ × α))
    (k : κ) (f : α → α) :
    aupdate (p :: l) k f = (if p.1 = k then (p.1, f p.2) else p) :: aupdate l k f := rfl

theorem aupdate_not_mem {κ α : Type} [DecidableEq κ] (l : List (κ × α)) (k : κ)
    (f : α → α) (h : k ∉ l.map Prod.fst) : aupdate l k f = l := by
  induction l with
  | nil => rfl
  | cons p rest ih =>
    simp only [List.map_cons, List.mem_cons] at h
    push_neg at h
    rw [aupdate_cons, if_neg (fun he => h.1 he.symm), ih h.2]

theorem childIds_subset_keys {w : Widgets} (hwf : w.WF) {c : Nat}
    (hc : c ∈ w.childIds) : c ∈ w.keys := by
  rcases List.mem_flatten.mp hc with ⟨l, hl, hcl⟩
  rcases List.mem_map.mp hl with ⟨⟨qk, qe⟩, hq, hql⟩
  rw [← hql] at hcl
  exact hwf.child_mem (alookup_of_mem_nodup hwf.1 hq) hcl

theorem flatten_children_aupdate_perm (P n : Nat) :
    ∀ l : List (Nat × CacheEntry), (l.map Prod.fst).Nodup →
    ∀ {e0 : CacheEntry}, alookup l P = some e0 →
    List.Perm
      ((aupdate l P (fun e => { e with children := e.children ++ [n] })).map
        fun p => p.2.children).flatten
      ((l.map fun p => p.2.children).flatten ++ [n]) := by
  intro l
  induction l with
  | nil =>
    intro _ e0 hP
    simp [alookup] at hP
  | cons p rest ih =>
    intro hnd e0 hP
    rw [List.map_cons, List.nodup_cons] at hnd
    rw [aupdate_cons]
    by_cases hp : p.1 = P
    · rw [if_pos hp, aupdate_not_mem rest P _ (hp ▸ hnd.1)]
      simp only [List.map_cons, List.flatten_cons]
      rw [List.append_assoc, List.append_assoc]
      exact List.Perm.append_left _ List.perm_append_comm
    · have hP2 : alookup rest P = some e0 := by simpa [alookup, hp] using hP
      rw [if_neg hp]
      simp only [List.map_cons, List.flatten_cons]
      rw [List.append_assoc]
      exact List.Perm.append_left _ (ih hnd.2 hP2)

theorem alookup_extend_old (l : List (Nat × CacheEntry)) (P n k : Nat)
    (eN : CacheEntry) (hkP : k ≠ P) (hkn : k ≠ n) :
    alookup (aupdate l P (fun e => { e with children := e.children ++ [n] })
      ++ [(n, eN)]) k = alookup l k := by
  rcases hl : alookup (aupdate l P
      (fun e => { e with children := e.children ++ [n] })) k with _ | v
  · rw [alookup_append_of_none _ hl]
    rw [alookup_aupdate_ne _ _ _ _ hkP] at hl
    rw [hl]
    simp [alookup, Ne.symm hkn]
  · rw [alookup_append_of_some _ hl]
    rw [alookup_aupdate_ne _ _ _ _ hkP] at hl
    exact hl.symm

theorem alookup_extend_parent (l : List (Nat × CacheEntry)) (P n : Nat)
    (eN e0 : CacheEntry) (hP : alookup l P = some e0) :
    alookup (aupdate l P (fun e => { e with children := e.children ++ [n] })
      ++ [(n, eN)]) P = some { e0 with children := e0.children ++ [n] } := by
  apply alookup_append_of_some
  rw [alookup_aupdate_self, hP]
  rfl

theorem alookup_extend_new (l : List (Nat × CacheEntry)) (P n : Nat)
    (eN : CacheEntry) (hn : alookup l n = none) :
    alookup (aupdate l P (fun e => { e with children := e.children ++ [n] })
      ++ [(n, eN)]) n = some eN := by
  have hup : alookup (aupdate l P
      (fun e => { e with children := e.children ++ [n] })) n = none := by
    by_cases hnP : n = P
    · rw [hnP] at hn
      rw [hnP, alookup_aupdate_self, hn]
      rfl
    · rw [alookup_aupdate_ne _ _ _ _ hnP, hn]
  rw [alookup_append_of_none _ hup]
  simp [alookup]

theorem Widgets.keys_mk (c : List (Nat × CacheEntry)) (n : Nat) :
    (Widgets.mk c n).keys = c.map Prod.fst := rfl

theorem Widgets.childIds_mk (c : List (Nat × CacheEntry)) (n : Nat) :
    (Widgets.mk c n).childIds = (c.map fun p => p.2.children).flatten := rfl

theorem new_wf (root_widget : Properties) : (Widgets.new root_widget).WF := by
  refine ⟨?_, ?_, ?_, ?_, ?_, ?_⟩ <;>
    simp [Widgets.new, Widgets.keys, Widgets.childIds, CacheEntry.new]

theorem extend_wf (w : Widgets) (parent : Nat) (eN : CacheEntry) (e0 : CacheEntry)
    (hwf : w.WF) (hP : alookup w.cache parent = some e0) (hN : eN.children = []) :
    (Widgets.mk (aupdate w.cache parent
        (fun e => { e with children := e.children ++ [w.next_id] })
      ++ [(w.next_id, eN)]) (w.next_id + 1)).WF := by
  have hidnot : w.next_id ∉ w.keys := fun hmem => absurd (hwf.key_lt hmem) (lt_irrefl _)
  have hkeys2 : (Widgets.mk (aupdate w.cache parent
        (fun e => { e with children := e.children ++ [w.next_id] })
      ++ [(w.next_id, eN)]) (w.next_id + 1)).keys = w.keys ++ [w.next_id] := by
    rw [Widgets.keys_mk, List.map_append, keys_aupdate]
    rfl
  have hperm : List.Perm (Widgets.mk (aupdate w.cache parent
        (fun e => { e with children := e.children ++ [w.next_id] })
      ++ [(w.next_id, eN)]) (w.next_id + 1)).childIds
      (w.childIds ++ [w.next_id]) := by
    rw [Widgets.childIds_mk, List.map_append, List.flatten_append]
    simp only [List.map_cons, List.map_nil, List.flatten_cons, List.flatten_nil,
      hN, List.append_nil]
    exact flatten_children_aupdate_perm parent w.next_id w.cache hwf.1 hP
  refine ⟨?_, ?_, ?_, ?_, ?_, ?_⟩
  · rw [hkeys2]
    simp [List.nodup_append, hwf.nodup_keys, hidnot]
  · intro p hp
    rcases List.mem_append.mp hp with hp | hp
    · rcases List.mem_map.mp hp with ⟨q, hq, hpq⟩
      have hq1 : p.1 = q.1 := by
        rw [← hpq]
        by_cases h : q.1 = parent <;> simp [h]
      have := hwf.2.1 q hq
      show p.1 < w.next_id + 1
      omega
    · rcases List.mem_singleton.mp hp with rfl
      show w.next_id < w.next_id + 1
      omega
  · intro p hp c hc
    have hmem2 : ∀ x, x ∈ w.keys ++ [w.next_id] →
        x ∈ (Widgets.mk (aupdate w.cache parent
          (fun e => { e with children := e.children ++ [w.next_id] })
          ++ [(w.next_id, eN)]) (w.next_id + 1)).keys := by
      intro x hx
      rw [hkeys2]
      exact hx
    rcases List.mem_append.mp hp with hp | hp
    · rcases List.mem_map.mp hp with ⟨q, hq, hpq⟩
      have hql : alookup w.cache q.1 = some q.2 := by
        rcases q with ⟨qk, qe⟩
        exact alookup_of_mem_nodup hwf.1 hq
      by_cases h : q.1 = parent
      · rw [← hpq] at hc ⊢
        simp only [if_pos h] at hc ⊢
        rcases List.mem_append.mp hc with hc | hc
        · exact ⟨hwf.child_gt hql hc,
            hmem2 _ (List.mem_append_left _ (hwf.child_mem hql hc))⟩
        · rcases List.mem_singleton.mp hc with rfl
          exact ⟨hwf.2.1 q hq,
            hmem2 _ (List.mem_append_right _ (List.mem_singleton_self _))⟩
      · rw [← hpq] at hc ⊢
        simp only [if_neg h] at hc ⊢
        exact ⟨hwf.child_gt hql hc,
          hmem2 _ (List.mem_append_left _ (hwf.child_mem hql hc))⟩
    · rcases List.mem_singleton.mp hp with rfl
      rw [hN] at hc
      simp at hc
  · rw [hperm.nodup_iff]
    have hsub : w.next_id ∉ w.childIds :=
      fun hmem => absurd (hwf.key_lt (childIds_subset_keys hwf hmem)) (lt_irrefl _)
    simp [List.nodup_append, hwf.2.2.2.1, hsub]
  · rw [hkeys2]
    exact List.mem_append_left _ hwf.2.2.2.2.1
  · intro p hp hne
    rw [hperm.mem_iff]
    rcases List.mem_append.mp hp with hp | hp
    · rcases List.mem_map.mp hp with ⟨q, hq, hpq⟩
      have hq1 : p.1 = q.1 := by
        rw [← hpq]
        by_cases h : q.1 = parent <;> simp [h]
      apply List.mem_append_left
      rw [hq1]
      exact hwf.2.2.2.2.2 q hq (by rw [← hq1]; exact hne)
    · rcases List.mem_singleton.mp hp with rfl
      exact List.mem_append_right _ (List.mem_singleton_self _)

/-- Everything Widgets::insert guarantees on a well-formed arena: the result
remains well-formed, the new id is w.next_id which is strictly greater than
every id already in the cache, the new node is recorded as the last child of
the (existing) parent, the new node's entry is present with empty child list,
and all other entries are untouched. -/
theorem insert_wf (w : Widgets) (widget : Properties) (parent : Nat) (w' : Widgets)
    (id : Nat) (hwf : w.WF) (hins : w.insert widget parent = some (w', id)) :
    w'.WF ∧ id = w.next_id ∧ (∀ k ∈ w.keys, k < id)
    ∧ w'.next_id = w.next_id + 1
    ∧ (∀ k, k ≠ parent → k ≠ id → alookup w'.cache k = alookup w.cache k)
    ∧ (∃ e0, alookup w.cache parent = some e0 ∧
        alookup w'.cache parent = some { e0 with children := e0.children ++ [id] })
    ∧ alookup w'.cache id = some (CacheEntry.new { widget with invalidated := true }
        parent) := by
  rcases hP : alookup w.cache parent with _ | e0
  · rw [Widgets.insert, hP] at hins
    exact Option.noConfusion hins
  · rw [Widgets.insert, hP, Option.some.injEq, Prod.mk.injEq] at hins
    obtain ⟨hw', hid⟩ := hins
    subst hid
    subst hw'
    have hlidnone : alookup w.cache w.next_id = none := by
      rcases hl : alookup w.cache w.next_id with _ | v
      · rfl
      · exact absurd ((alookup_isSome_iff _ _).mp (by rw [hl]; rfl))
          (fun hmem => absurd (hwf.key_lt hmem) (lt_irrefl _))
    have hPn : parent ≠ w.next_id := by
      have : parent ∈ w.keys := (alookup_isSome_iff _ _).mp (by rw [hP]; rfl)
      have := hwf.key_lt this
      omega
    refine ⟨extend_wf w parent _ e0 hwf hP rfl, rfl, fun k hk => hwf.key_lt hk, rfl,
      ?_, ⟨e0, rfl, ?_⟩, ?_⟩
    · intro k hkp hki
      exact alookup_extend_old w.cache parent w.next_id k _ hkp hki
    · exact alookup_extend_parent w.cache parent w.next_id _ e0 hP
    · exact alookup_extend_new w.cache parent w.next_id _ hlidnone

-- ## Effect of Widgets::draw_widget (render pass)

/-- The widget properties stored at a given id. -/
def Widgets.widgetAt (w : Widgets) (k : Nat) : Option Properties :=
  (alookup w.cache k).map fun e => e.widget

/-- The child list stored at a given id. -/
def Widgets.childrenAt (w : Widgets) (k : Nat) : Option (List Nat) :=
  (alookup w.cache k).map fun e => e.children

/-- The hidden flag stored at a given id (false when the id is absent). -/
def Widgets.hiddenAt (w : Widgets) (k : Nat) : Bool :=
  ((w.widgetAt k).map fun p => p.hidden).getD false

/-- The invalidated flag stored at a given id (false when the id is absent). -/
def Widgets.invAt (w : Widgets) (k : Nat) : Bool :=
  ((w.widgetAt k).map fun p => p.invalidated).getD false

/-- The effect of one render visit on a widget's properties: a visible widget
has its invalidated flag cleared after being drawn and blitted; a hidden
widget is left untouched. -/
def rpProps (p : Properties) : Properties :=
  if p.hidden then p else { p with invalidated := false }

theorem rpProps_hidden (p : Properties) : (rpProps p).hidden = p.hidden := by
  unfold rpProps
  by_cases h : p.hidden <;> simp [h]

theorem rpProps_idem (p : Properties) : rpProps (rpProps p) = rpProps p := by
  unfold rpProps
  by_cases h : p.hidden <;> simp [h]

theorem rpProps_of_hidden {p : Properties} (h : p.hidden = true) : rpProps p = p := by
  simp [rpProps, h]

theorem rpProps_of_visible {p : Properties} (h : p.hidden = false) :
    rpProps p = { p with invalidated := false } := by
  simp [rpProps, h]

theorem set_inv_false_of_false {p : Properties} (h : p.invalidated = false) :
    { p with invalidated := false } = p := by
  cases p
  simp at h
  simp [h]

theorem widgetAt_modify_self (w : Widgets) (id : Nat) (f : CacheEntry → CacheEntry) :
    (w.modify id f).widgetAt id = (alookup w.cache id).map fun e => (f e).widget := by
  show ((alookup (w.modify id f).cache id).map _) = _
  rw [alookup_modify_self]
  rcases alookup w.cache id with _ | e <;> rfl

theorem widgetAt_modify_ne (w : Widgets) (id k : Nat) (f : CacheEntry → CacheEntry)
    (h : k ≠ id) : (w.modify id f).widgetAt k = w.widgetAt k := by
  show ((alookup (w.modify id f).cache k).map _) = _
  rw [alookup_modify_ne _ _ _ _ h]
  rfl

theorem childrenAt_modify (w : Widgets) (id : Nat) (f : CacheEntry → CacheEntry)
    (hf : ∀ e, (f e).children = e.children) (k : Nat) :
    (w.modify id f).childrenAt k = w.childrenAt k := by
  unfold Widgets.childrenAt
  by_cases h : k = id
  · subst h
    rw [show (w.modify k f).cache = aupdate w.cache k f from rfl, alookup_aupdate_self]
    rcases alookup w.cache k with _ | e
    · rfl
    · simp [hf]
  · rw [show (w.modify id f).cache = aupdate w.cache id f from rfl,
      alookup_aupdate_ne _ _ _ _ h]

/-- The running-state invariant of a render pass relative to the arena w0 it
started from: tree structure and next_id are untouched, every widget is either
still as in w0 or already rendered (rpProps applied), and a widget that has
visibly changed has already been recorded as redrawn and blitted. -/
def DrawInv (w0 : Widgets) (s : DrawState) : Prop :=
  (∀ k, s.w.childrenAt k = w0.childrenAt k)
  ∧ (∀ k, s.w.widgetAt k = w0.widgetAt k
      ∨ s.w.widgetAt k = (w0.widgetAt k).map rpProps)
  ∧ (∀ k, s.w.widgetAt k ≠ w0.widgetAt k → k ∈ s.redraws ∧ k ∈ s.blits)
  ∧ s.w.next_id = w0.next_id

-- ## Node-level facts about renderNode

theorem renderNode_childrenAt (s : DrawState) (id : Nat) (e : CacheEntry) (k : Nat) :
    (renderNode s id e).w.childrenAt k = s.w.childrenAt k := by
  unfold renderNode
  by_cases hh : e.widget.hidden = true
  · rw [if_pos hh]
  · rw [if_neg hh]
    exact childrenAt_modify s.w id (fun e0 =>
      { e0 with
        texture := (e.texture.create_or_resize s.nextTex
          e.widget.bounds.1 e.widget.bounds.2).1,
        widget := { e0.widget with invalidated := false } }) (fun _ => rfl) k

theorem renderNode_next_id (s : DrawState) (id : Nat) (e : CacheEntry) :
    (renderNode s id e).w.next_id = s.w.next_id := by
  unfold renderNode
  by_cases hh : e.widget.hidden = true
  · rw [if_pos hh]
  · rw [if_neg hh]
    rfl

theorem renderNode_widgetAt_ne (s : DrawState) (id : Nat) (e : CacheEntry) (k : Nat)
    (hk : k ≠ id) : (renderNode s id e).w.widgetAt k = s.w.widgetAt k := by
  unfold renderNode
  by_cases hh : e.widget.hidden = true
  · rw [if_pos hh]
  · rw [if_neg hh]
    exact widgetAt_modify_ne _ _ _ _ hk

theorem renderNode_widgetAt_self_visible (s : DrawState) (id : Nat) (e : CacheEntry)
    (he : alookup s.w.cache id = some e) (hhidF : e.widget.hidden = false) :
    (renderNode s id e).w.widgetAt id = some { e.widget with invalidated := false } := by
  unfold renderNode
  rw [if_neg (by rw [hhidF]; exact Bool.false_ne_true)]
  show (s.w.modify id _).widgetAt id = _
  rw [widgetAt_modify_self, he]
  rfl

theorem renderNode_widgetAt_self_hidden (s : DrawState) (id : Nat) (e : CacheEntry)
    (hhidT : e.widget.hidden = true) :
    (renderNode s id e).w.widgetAt id = s.w.widgetAt id := by
  unfold renderNode
  rw [if_pos hhidT]

theorem renderNode_blits_hidden (s : DrawState) (id : Nat) (e : CacheEntry)
    (hhidT : e.widget.hidden = true) : (renderNode s id e).blits = s.blits := by
  unfold renderNode
  rw [if_pos hhidT]

theorem renderNode_redraws_hidden (s : DrawState) (id : Nat) (e : CacheEntry)
    (hhidT : e.widget.hidden = true) : (renderNode s id e).redraws = s.redraws := by
  unfold renderNode
  rw [if_pos hhidT]

theorem renderNode_blits_visible (s : DrawState) (id : Nat) (e : CacheEntry)
    (hhidF : e.widget.hidden = false) :
    (renderNode s id e).blits = s.blits ++ [id] := by
  unfold renderNode
  rw [if_neg (by rw [hhidF]; exact Bool.false_ne_true)]

theorem renderNode_redraws_visible (s : DrawState) (id : Nat) (e : CacheEntry)
    (hhidF : e.widget.hidden = false) :
    (renderNode s id e).redraws
      = if e.widget.invalidated then s.redraws ++ [id] else s.redraws := by
  unfold renderNode
  rw [if_neg (by rw [hhidF]; exact Bool.false_ne_true)]

/-- For a visible node whose widget is either still as in w0 or already
rendered, the cleared-flag widget equals the rendered form of w0's widget. -/
theorem cleared_eq_rpProps {pw p0 : Properties}
    (hAid : pw = p0 ∨ pw = rpProps p0) (hhidF : pw.hidden = false) :
    { pw with invalidated := false } = rpProps p0 := by
  rcases hAid with h | h
  · subst h
    rw [rpProps_of_visible hhidF]
  · subst h
    have h0 : p0.hidden = false := by rw [← rpProps_hidden]; exact hhidF
    rw [rpProps_of_visible h0]


/-- Characterization of a successful draw_widget run relative to the arena w0
the whole pass started from: the tree structure and next_id never change;
every widget is either untouched or rendered; every widget in the visited
subtree ends rendered (visible ones get invalidated := false, hidden ones
stay untouched); and a node is blitted (resp. content-redrawn) during the
call if and only if it is a visible node of the visited subtree (resp. a
visible, invalidated one). -/
theorem draw_char (w0 : Widgets) :
    ∀ fuel : Nat, ∀ (s : DrawState) (id : Nat) (s' : DrawState),
      Widgets.draw_widget fuel s id = some s' →
      DrawInv w0 s →
      DrawInv w0 s'
      ∧ (∀ k, s.w.widgetAt k = (w0.widgetAt k).map rpProps →
          s'.w.widgetAt k = (w0.widgetAt k).map rpProps)
      ∧ (∀ k, w0.Desc id k → s'.w.widgetAt k = (w0.widgetAt k).map rpProps)
      ∧ (∀ k, k ∈ s'.blits ↔ k ∈ s.blits
          ∨ (w0.Desc id k ∧ w0.hiddenAt k = false))
      ∧ (∀ k, k ∈ s'.redraws ↔ k ∈ s.redraws
          ∨ (w0.Desc id k ∧ w0.hiddenAt k = false ∧ w0.invAt k = true)) := by
  intro fuel
  induction fuel with
  | zero =>
    intro s id s' hrun
    rw [Widgets.draw_widget] at hrun
    exact absurd hrun (by simp)
  | succ fuel ih =>
    intro s id s' hrun hinv
    have fold_draw : ∀ id2 : Nat, ∀ cs : List Nat, ∀ acc res : DrawState,
        List.foldlM (fun acc c => if c ≠ id2 then Widgets.draw_widget fuel acc c
          else some acc) acc cs = some res →
        DrawInv w0 acc →
        DrawInv w0 res
        ∧ (∀ k, acc.w.widgetAt k = (w0.widgetAt k).map rpProps →
            res.w.widgetAt k = (w0.widgetAt k).map rpProps)
        ∧ (∀ k, (∃ c ∈ cs, c ≠ id2 ∧ w0.Desc c k) →
            res.w.widgetAt k = (w0.widgetAt k).map rpProps)
        ∧ (∀ k, k ∈ res.blits ↔ k ∈ acc.blits
            ∨ (∃ c ∈ cs, c ≠ id2 ∧ w0.Desc c k ∧ w0.hiddenAt k = false))
        ∧ (∀ k, k ∈ res.redraws ↔ k ∈ acc.redraws
            ∨ (∃ c ∈ cs, c ≠ id2 ∧ w0.Desc c k ∧ w0.hiddenAt k = false
                ∧ w0.invAt k = true)) := by
      intro id2 cs
      induction cs with
      | nil =>
        intro acc res hres hacc
        have heq : acc = res := by simpa using hres
        subst heq
        refine ⟨hacc, fun k h => h, ?_, ?_, ?_⟩
        · intro k hk
          rcases hk with ⟨c, hc, _⟩
          simp at hc
        · intro k
          simp
        · intro k
          simp
      | cons c cs ihc =>
        intro acc res hres hacc
        rw [List.foldlM_cons] at hres
        by_cases hcid : c = id2
        · have hres2 : List.foldlM (fun acc c => if c ≠ id2 then
              Widgets.draw_widget fuel acc c else some acc) acc cs = some res := by
            simpa [hcid] using hres
          have htail := ihc acc res hres2 hacc
          refine ⟨htail.1, htail.2.1, ?_, ?_, ?_⟩
          · intro k hk
            rcases hk with ⟨c2, hc2, hne2, hd2⟩
            rcases List.mem_cons.mp hc2 with rfl | hm
            · exact absurd hcid hne2
            · exact htail.2.2.1 k ⟨c2, hm, hne2, hd2⟩
          · intro k
            rw [htail.2.2.2.1 k]
            constructor
            · rintro (h | ⟨c2, hm, h2⟩)
              · exact Or.inl h
              · exact Or.inr ⟨c2, List.mem_cons_of_mem _ hm, h2⟩
            · rintro (h | ⟨c2, hm, h2⟩)
              · exact Or.inl h
              · rcases List.mem_cons.mp hm with rfl | hm2
                · exact absurd hcid h2.1
                · exact Or.inr ⟨c2, hm2, h2⟩
          · intro k
            rw [htail.2.2.2.2 k]
            constructor
            · rintro (h | ⟨c2, hm, h2⟩)
              · exact Or.inl h
              · exact Or.inr ⟨c2, List.mem_cons_of_mem _ hm, h2⟩
            · rintro (h | ⟨c2, hm, h2⟩)
              · exact Or.inl h
              · rcases List.mem_cons.mp hm with rfl | hm2
                · exact absurd hcid h2.1
                · exact Or.inr ⟨c2, hm2, h2⟩
        · rw [if_pos hcid] at hres
          rcases hmid : Widgets.draw_widget fuel acc c with _ | mid
          · rw [hmid] at hres
            simp at hres
          · rw [hmid] at hres
            have hres2 : List.foldlM (fun acc c => if c ≠ id2 then
                Widgets.draw_widget fuel acc c else some acc) mid cs = some res := hres
            have hstep := ih acc c mid hmid hacc
            have htail := ihc mid res hres2 hstep.1
            refine ⟨htail.1, ?_, ?_, ?_, ?_⟩
            · exact fun k h => htail.2.1 k (hstep.2.1 k h)
            · intro k hk
              rcases hk with ⟨c2, hc2, hne2, hd2⟩
              rcases List.mem_cons.mp hc2 with rfl | hm
              · exact htail.2.1 k (hstep.2.2.1 k hd2)
              · exact htail.2.2.1 k ⟨c2, hm, hne2, hd2⟩
            · intro k
              rw [htail.2.2.2.1 k, hstep.2.2.2.1 k]
              constructor
              · rintro ((h | ⟨hd, hh⟩) | ⟨c2, hm, h2⟩)
                · exact Or.inl h
                · exact Or.inr ⟨c, List.mem_cons_self _ _, hcid, hd, hh⟩
                · exact Or.inr ⟨c2, List.mem_cons_of_mem _ hm, h2⟩
              · rintro (h | ⟨c2, hm, h2⟩)
                · exact Or.inl (Or.inl h)
                · rcases List.mem_cons.mp hm with rfl | hm2
                  · exact Or.inl (Or.inr ⟨h2.2.1, h2.2.2⟩)
                  · exact Or.inr ⟨c2, hm2, h2⟩
            · intro k
              rw [htail.2.2.2.2 k, hstep.2.2.2.2 k]
              constructor
              · rintro ((h | ⟨hd, hh, hi⟩) | ⟨c2, hm, h2⟩)
                · exact Or.inl h
                · exact Or.inr ⟨c, List.mem_cons_self _ _, hcid, hd, hh, hi⟩
                · exact Or.inr ⟨c2, List.mem_cons_of_mem _ hm, h2⟩
              · rintro (h | ⟨c2, hm, h2⟩)
                · exact Or.inl (Or.inl h)
                · rcases List.mem_cons.mp hm with rfl | hm2
                  · exact Or.inl (Or.inr ⟨h2.2.1, h2.2.2⟩)
                  · exact Or.inr ⟨c2, hm2, h2⟩
    rcases he : alookup s.w.cache id with _ | e
    · simp only [Widgets.draw_widget, he] at hrun
      exact Option.noConfusion hrun
    · simp only [Widgets.draw_widget, he] at hrun
      have hwid : s.w.widgetAt id = some e.widget := by
        simp [Widgets.widgetAt, he]
      have hchid : s.w.childrenAt id = some e.children := by
        simp [Widgets.childrenAt, he]
      have hch0 : w0.childrenAt id = some e.children := (hinv.1 id).symm.trans hchid
      rcases he0 : alookup w0.cache id with _ | e0
      · rw [show w0.childrenAt id
            = Option.map (fun e => e.children) (alookup w0.cache id) from rfl,
          he0] at hch0
        exact Option.noConfusion hch0
      · have hwid0 : w0.widgetAt id = some e0.widget := by
          simp [Widgets.widgetAt, he0]
        have hech : e0.children = e.children := by
          rw [show w0.childrenAt id
              = Option.map (fun e => e.children) (alookup w0.cache id) from rfl,
            he0] at hch0
          exact Option.some.inj hch0
        have hAid : e.widget = e0.widget ∨ e.widget = rpProps e0.widget := by
          rcases hinv.2.1 id with h | h
          · rw [hwid, hwid0] at h
            exact Or.inl (Option.some.inj h)
          · rw [hwid, hwid0] at h
            exact Or.inr (Option.some.inj h)
        have hhid_eq : e.widget.hidden = e0.widget.hidden := by
          rcases hAid with h | h
          · rw [h]
          · rw [h, rpProps_hidden]
        have hhidAt : w0.hiddenAt id = e0.widget.hidden := by
          simp [Widgets.hiddenAt, hwid0]
        have hinvAt : w0.invAt id = e0.widget.invalidated := by
          simp [Widgets.invAt, hwid0]
        have hselfvis : e.widget.hidden = false →
            (renderNode s id e).w.widgetAt id = (w0.widgetAt id).map rpProps := by
          intro hhidF
          rw [renderNode_widgetAt_self_visible s id e he hhidF, hwid0]
          show some _ = some (rpProps e0.widget)
          rw [cleared_eq_rpProps hAid hhidF]
        have hA1 : ∀ k, (renderNode s id e).w.widgetAt k = w0.widgetAt k
            ∨ (renderNode s id e).w.widgetAt k = (w0.widgetAt k).map rpProps := by
          intro k
          by_cases hk : k = id
          · subst hk
            by_cases hh : e.widget.hidden = true
            · rw [renderNode_widgetAt_self_hidden s k e hh]
              exact hinv.2.1 k
            · exact Or.inr (hselfvis (by simpa using hh))
          · rw [renderNode_widgetAt_ne s id e k hk]
            exact hinv.2.1 k
        have hRed1 : ∀ k, (renderNode s id e).w.widgetAt k ≠ w0.widgetAt k →
            k ∈ (renderNode s id e).redraws ∧ k ∈ (renderNode s id e).blits := by
          intro k hne
          by_cases hh : e.widget.hidden = true
          · have hsn : renderNode s id e = s := by
              unfold renderNode
              rw [if_pos hh]
            rw [hsn] at hne ⊢
            exact hinv.2.2.1 k hne
          · have hhidF : e.widget.hidden = false := by simpa using hh
            rw [renderNode_blits_visible s id e hhidF,
              renderNode_redraws_visible s id e hhidF]
            by_cases hk : k = id
            · subst hk
              refine ⟨?_, List.mem_append_right _ (List.mem_singleton_self _)⟩
              by_cases hi : e.widget.invalidated = true
              · rw [if_pos hi]
                exact List.mem_append_right _ (List.mem_singleton_self _)
              · have hiF : e.widget.invalidated = false := by simpa using hi
                rw [if_neg hi]
                apply (hinv.2.2.1 k ?_).1
                rw [renderNode_widgetAt_self_visible s k e he hhidF,
                  set_inv_false_of_false hiF] at hne
                rw [hwid]
                exact hne
            · rw [renderNode_widgetAt_ne s id e k hk] at hne
              rcases hinv.2.2.1 k hne with ⟨h1, h2⟩
              refine ⟨?_, List.mem_append_left _ h2⟩
              by_cases hi : e.widget.invalidated = true
              · rw [if_pos hi]
                exact List.mem_append_left _ h1
              · rw [if_neg hi]
                exact h1
        have hN1 : DrawInv w0 (renderNode s id e) :=
          ⟨fun k => (renderNode_childrenAt s id e k).trans (hinv.1 k), hA1, hRed1,
            (renderNode_next_id s id e).trans hinv.2.2.2⟩
        have hAbs1 : ∀ k, s.w.widgetAt k = (w0.widgetAt k).map rpProps →
            (renderNode s id e).w.widgetAt k = (w0.widgetAt k).map rpProps := by
          intro k hk
          by_cases hkid : k = id
          · subst hkid
            by_cases hh : e.widget.hidden = true
            · have hsn : renderNode s k e = s := by
                unfold renderNode
                rw [if_pos hh]
              rw [hsn]
              exact hk
            · exact hselfvis (by simpa using hh)
          · rw [renderNode_widgetAt_ne s id e k hkid]
            exact hk
        have hblit1 : ∀ k, k ∈ (renderNode s id e).blits ↔ k ∈ s.blits
            ∨ (k = id ∧ e.widget.hidden = false) := by
          intro k
          by_cases hh : e.widget.hidden = true
          · rw [renderNode_blits_hidden s id e hh]
            constructor
            · exact Or.inl
            · rintro (h | ⟨_, hf⟩)
              · exact h
              · rw [hh] at hf
                exact Bool.noConfusion hf
          · have hhidF : e.widget.hidden = false := by simpa using hh
            rw [renderNode_blits_visible s id e hhidF]
            simp only [List.mem_append, List.mem_singleton]
            constructor
            · rintro (h | h)
              · exact Or.inl h
              · exact Or.inr ⟨h, hhidF⟩
            · rintro (h | ⟨h, _⟩)
              · exact Or.inl h
              · exact Or.inr h
        have hredraw1 : ∀ k, k ∈ (renderNode s id e).redraws ↔ k ∈ s.redraws
            ∨ (k = id ∧ e.widget.hidden = false ∧ e0.widget.invalidated = true) := by
          intro k
          by_cases hh : e.widget.hidden = true
          · rw [renderNode_redraws_hidden s id e hh]
            constructor
            · exact Or.inl
            · rintro (h | ⟨_, hf, _⟩)
              · exact h
              · rw [hh] at hf
                exact Bool.noConfusion hf
          · have hhidF : e.widget.hidden = false := by simpa using hh
            rw [renderNode_redraws_visible s id e hhidF]
            by_cases hi : e.widget.invalidated = true
            · have he0i : e0.widget.invalidated = true := by
                rcases hAid with h | h
                · rw [← h]
                  exact hi
                · exfalso
                  have h0 : e0.widget.hidden = false := by
                    rw [← rpProps_hidden e0.widget, ← h]
                    exact hhidF
                  rw [h, rpProps_of_visible h0] at hi
                  simp at hi
              rw [if_pos hi]
              simp only [List.mem_append, List.mem_singleton]
              constructor
              · rintro (h | h)
                · exact Or.inl h
                · exact Or.inr ⟨h, hhidF, he0i⟩
              · rintro (h | ⟨h, _, _⟩)
                · exact Or.inl h
                · exact Or.inr h
            · rw [if_neg hi]
              have hiF : e.widget.invalidated = false := by simpa using hi
              constructor
              · exact Or.inl
              · rintro (h | ⟨hk, _, hi0⟩)
                · exact h
                · subst hk
                  apply (hinv.2.2.1 k ?_).1
                  rw [hwid, hwid0]
                  intro heq
                  have hew : e.widget = e0.widget := Option.some.inj heq
                  rw [hew] at hiF
                  rw [hiF] at hi0
                  exact Bool.noConfusion hi0
        have hfold := fold_draw id e.children (renderNode s id e) s' hrun hN1
        refine ⟨hfold.1, ?_, ?_, ?_, ?_⟩
        · exact fun k h => hfold.2.1 k (hAbs1 k h)
        · intro k hdk
          rcases (Widgets.Desc.iff_children he0).mp hdk with rfl | ⟨c, hc, hne, hd⟩
          · by_cases hh : e.widget.hidden = true
            · rcases hfold.1.2.1 k with h | h
              · rw [h, hwid0]
                have h0 : e0.widget.hidden = true := hhid_eq ▸ hh
                simp [rpProps_of_hidden h0]
              · exact h
            · exact hfold.2.1 k (hselfvis (by simpa using hh))
          · exact hfold.2.2.1 k ⟨c, hech ▸ hc, hne, hd⟩
        · intro k
          rw [hfold.2.2.2.1 k, hblit1 k]
          constructor
          · rintro ((h | ⟨rfl, hh⟩) | ⟨c, hc, hne, hd, hh⟩)
            · exact Or.inl h
            · exact Or.inr ⟨Widgets.Desc.refl _, by rw [hhidAt, ← hhid_eq]; exact hh⟩
            · exact Or.inr ⟨Widgets.Desc.step e0 he0 (by rw [hech]; exact hc) hne hd, hh⟩
          · rintro (h | ⟨hd, hh⟩)
            · exact Or.inl (Or.inl h)
            · rcases (Widgets.Desc.iff_children he0).mp hd with rfl | ⟨c, hc, hne, hdc⟩
              · exact Or.inl (Or.inr ⟨rfl, by rw [hhid_eq, ← hhidAt]; exact hh⟩)
              · exact Or.inr ⟨c, hech ▸ hc, hne, hdc, hh⟩
        · intro k
          rw [hfold.2.2.2.2 k, hredraw1 k]
          constructor
          · rintro ((h | ⟨rfl, hh, hi⟩) | ⟨c, hc, hne, hd, hh, hi⟩)
            · exact Or.inl h
            · exact Or.inr ⟨Widgets.Desc.refl _, by rw [hhidAt, ← hhid_eq]; exact hh,
                by rw [hinvAt]; exact hi⟩
            · exact Or.inr ⟨Widgets.Desc.step e0 he0 (by rw [hech]; exact hc) hne hd,
                hh, hi⟩
          · rintro (h | ⟨hd, hh, hi⟩)
            · exact Or.inl (Or.inl h)
            · rcases (Widgets.Desc.iff_children he0).mp hd with rfl | ⟨c, hc, hne, hdc⟩
              · exact Or.inl (Or.inr ⟨rfl, by rw [hhid_eq, ← hhidAt]; exact hh,
                  by rw [← hinvAt]; exact hi⟩)
              · exact Or.inr ⟨c, hech ▸ hc, hne, hdc, hh, hi⟩

/-- One renderNode visit preserves the render-pass invariant. -/
theorem renderNode_DrawInv (w0 : Widgets) (s : DrawState) (id : Nat) (e : CacheEntry)
    (he : alookup s.w.cache id = some e) (hinv : DrawInv w0 s) :
    DrawInv w0 (renderNode s id e) := by
  have hwid : s.w.widgetAt id = some e.widget := by simp [Widgets.widgetAt, he]
  obtain ⟨p0, hwid0, hAid⟩ : ∃ p0, w0.widgetAt id = some p0
      ∧ (e.widget = p0 ∨ e.widget = rpProps p0) := by
    rcases hinv.2.1 id with h | h
    · rw [hwid] at h
      exact ⟨e.widget, h.symm, Or.inl rfl⟩
    · rw [hwid] at h
      rcases hw0 : w0.widgetAt id with _ | p0
      · rw [hw0] at h
        simp at h
      · rw [hw0] at h
        exact ⟨p0, rfl, Or.inr (Option.some.inj h)⟩
  by_cases hh : e.widget.hidden = true
  · have hsn : renderNode s id e = s := by
      unfold renderNode
      rw [if_pos hh]
    rw [hsn]
    exact hinv
  · have hhidF : e.widget.hidden = false := by simpa using hh
    have hselfvis : (renderNode s id e).w.widgetAt id
        = (w0.widgetAt id).map rpProps := by
      rw [renderNode_widgetAt_self_visible s id e he hhidF, hwid0]
      show some _ = some (rpProps p0)
      rw [cleared_eq_rpProps hAid hhidF]
    refine ⟨fun k => (renderNode_childrenAt s id e k).trans (hinv.1 k), ?_, ?_,
      (renderNode_next_id s id e).trans hinv.2.2.2⟩
    · intro k
      by_cases hk : k = id
      · subst hk
        exact Or.inr hselfvis
      · rw [renderNode_widgetAt_ne s id e k hk]
        exact hinv.2.1 k
    · intro k hne
      rw [renderNode_blits_visible s id e hhidF, renderNode_redraws_visible s id e hhidF]
      by_cases hk : k = id
      · subst hk
        refine ⟨?_, List.mem_append_right _ (List.mem_singleton_self _)⟩
        by_cases hi : e.widget.invalidated = true
        · rw [if_pos hi]
          exact List.mem_append_right _ (List.mem_singleton_self _)
        · have hiF : e.widget.invalidated = false := by simpa using hi
          rw [if_neg hi]
          apply (hinv.2.2.1 k ?_).1
          rw [renderNode_widgetAt_self_visible s k e he hhidF,
            set_inv_false_of_false hiF] at hne
          rw [hwid]
          exact hne
      · rw [renderNode_widgetAt_ne s id e k hk] at hne
        rcases hinv.2.2.1 k hne with ⟨h1, h2⟩
        refine ⟨?_, List.mem_append_left _ h2⟩
        by_cases hi : e.widget.invalidated = true
        · rw [if_pos hi]
          exact List.mem_append_left _ h1
        · rw [if_neg hi]
          exact h1

/-- A draw_widget call on a well-formed arena succeeds with fuel
next_id - id (the recursion depth is bounded by the strictly increasing ids). -/
theorem draw_some (w0 : Widgets) (hwf : w0.WF) :
    ∀ fuel : Nat, ∀ (s : DrawState) (id : Nat),
      DrawInv w0 s →
      id ∈ w0.keys →
      w0.next_id - id ≤ fuel →
      ∃ s', Widgets.draw_widget fuel s id = some s' := by
  intro fuel
  induction fuel with
  | zero =>
    intro s id _ hid hfuel
    have := hwf.key_lt hid
    omega
  | succ fuel ih =>
    intro s id hinv hid hfuel
    have hsome0 : (alookup w0.cache id).isSome := by
      rw [alookup_isSome_iff]
      exact hid
    rcases he0 : alookup w0.cache id with _ | e0
    · rw [he0] at hsome0
      simp at hsome0
    · have hch0 : w0.childrenAt id = some e0.children := by
        simp [Widgets.childrenAt, he0]
      have hch : s.w.childrenAt id = some e0.children := (hinv.1 id).trans hch0
      rcases he : alookup s.w.cache id with _ | e
      · rw [show s.w.childrenAt id
            = Option.map (fun e => e.children) (alookup s.w.cache id) from rfl,
          he] at hch
        exact Option.noConfusion hch
      · have hech : e.children = e0.children := by
          rw [show s.w.childrenAt id
              = Option.map (fun e => e.children) (alookup s.w.cache id) from rfl,
            he] at hch
          exact Option.some.inj hch
        have hN1 : DrawInv w0 (renderNode s id e) := renderNode_DrawInv w0 s id e he hinv
        have fold_some : ∀ cs : List Nat, (∀ c ∈ cs, c ∈ e0.children) →
            ∀ acc : DrawState, DrawInv w0 acc →
            ∃ res, List.foldlM (fun acc c => if c ≠ id then Widgets.draw_widget fuel acc c
              else some acc) acc cs = some res := by
          intro cs
          induction cs with
          | nil =>
            intro _ acc _
            exact ⟨acc, rfl⟩
          | cons c cs ihc =>
            intro hmem acc hacc
            by_cases hcid : c = id
            · rcases ihc (fun c2 hc2 => hmem c2 (List.mem_cons_of_mem _ hc2)) acc hacc
                with ⟨res, hres⟩
              refine ⟨res, ?_⟩
              rw [List.foldlM_cons, if_neg (by simp [hcid])]
              exact hres
            · have hcmem : c ∈ e0.children := hmem c (List.mem_cons_self _ _)
              have hckey : c ∈ w0.keys := hwf.child_mem he0 hcmem
              have hcgt : id < c := hwf.child_gt he0 hcmem
              have hfc : w0.next_id - c ≤ fuel := by omega
              rcases ih acc c hacc hckey hfc with ⟨mid, hmid⟩
              have hchar := draw_char w0 fuel acc c mid hmid hacc
              rcases ihc (fun c2 hc2 => hmem c2 (List.mem_cons_of_mem _ hc2)) mid hchar.1
                with ⟨res, hres⟩
              refine ⟨res, ?_⟩
              rw [List.foldlM_cons, if_pos hcid, hmid]
              exact hres
        rcases fold_some e.children (fun c hc => hech ▸ hc) (renderNode s id e) hN1
          with ⟨res, hres⟩
        refine ⟨res, ?_⟩
        simp only [Widgets.draw_widget, he]
        exact hres

/-- C4 claim theorem: one full render pass (Widgets::draw) over a well-formed
arena terminates, and afterwards every visible widget -- including every
visible descendant of a hidden node, since children of hidden nodes are still
visited -- has been rendered: its invalidated flag is cleared, it was blitted
onto the canvas, and its content was re-drawn precisely when it had been
invalidated; every hidden widget is neither drawn nor blitted and keeps all
its properties (in particular its invalidated flag). -/
theorem render_pass_spec (w : Widgets) (ntex : Nat) (hwf : w.WF) :
    ∃ s', w.draw ntex = some s'
      ∧ ∀ k p, w.widgetAt k = some p →
        (p.hidden = false →
          s'.w.widgetAt k = some { p with invalidated := false }
          ∧ k ∈ s'.blits
          ∧ (p.invalidated = true ↔ k ∈ s'.redraws))
        ∧ (p.hidden = true →
          s'.w.widgetAt k = some p ∧ k ∉ s'.blits ∧ k ∉ s'.redraws) := by
  have hinv0 : DrawInv w ⟨w, [], [], ntex⟩ :=
    ⟨fun _ => rfl, fun _ => Or.inl rfl, fun _ hne => absurd rfl hne, rfl⟩
  have hroot : (0 : Nat) ∈ w.keys := hwf.2.2.2.2.1
  rcases draw_some w hwf w.next_id ⟨w, [], [], ntex⟩ 0 hinv0 hroot (Nat.sub_le _ _)
    with ⟨s', hs'⟩
  have hchar := draw_char w w.next_id ⟨w, [], [], ntex⟩ 0 s' hs' hinv0
  refine ⟨s', hs', ?_⟩
  intro k p hp
  have hk : k ∈ w.keys := by
    show k ∈ w.cache.map Prod.fst
    rw [← alookup_isSome_iff]
    rcases hl : alookup w.cache k with _ | e
    · rw [show w.widgetAt k
          = Option.map (fun e => e.widget) (alookup w.cache k) from rfl, hl] at hp
      exact Option.noConfusion hp
    · rfl
  have hdesc : w.Desc 0 k := hwf.all_desc k hk
  have hhidk : w.hiddenAt k = p.hidden := by simp [Widgets.hiddenAt, hp]
  have hinvk : w.invAt k = p.invalidated := by simp [Widgets.invAt, hp]
  constructor
  · intro hvf
    have hrp := hchar.2.2.1 k hdesc
    rw [hp] at hrp
    have hform : rpProps p = { p with invalidated := false } := rpProps_of_visible hvf
    refine ⟨by rw [hrp]; simp [hform], ?_, ?_⟩
    · rw [hchar.2.2.2.1 k]
      exact Or.inr ⟨hdesc, hhidk.trans hvf⟩
    · constructor
      · intro hinvp
        rw [hchar.2.2.2.2 k]
        exact Or.inr ⟨hdesc, hhidk.trans hvf, hinvk.trans hinvp⟩
      · intro hmem
        rw [hchar.2.2.2.2 k] at hmem
        rcases hmem with h | ⟨_, _, hi⟩
        · simp at h
        · exact hinvk ▸ hi
  · intro hht
    refine ⟨?_, ?_, ?_⟩
    · rcases hchar.1.2.1 k with h | h
      · rw [h]
        exact hp
      · rw [h, hp]
        simp [rpProps_of_hidden hht]
    · intro hmem
      rw [hchar.2.2.2.1 k] at hmem
      rcases hmem with h | ⟨_, hh⟩
      · simp at h
      · rw [hhidk, hht] at hh
        exact Bool.noConfusion hh
    · intro hmem
      rw [hchar.2.2.2.2 k] at hmem
      rcases hmem with h | ⟨_, hh, _⟩
      · simp at h
      · rw [hhidk, hht] at hh
        exact Bool.noConfusion hh

/-- C4 witness: a full render pass over the concrete arena. -/
theorem render_pass_spec_witness :
    ∃ s', exW.draw 0 = some s'
      ∧ ∀ k p, exW.widgetAt k = some p →
        (p.hidden = false →
          s'.w.widgetAt k = some { p with invalidated := false }
          ∧ k ∈ s'.blits
          ∧ (p.invalidated = true ↔ k ∈ s'.redraws))
        ∧ (p.hidden = true →
          s'.w.widgetAt k = some p ∧ k ∉ s'.blits ∧ k ∉ s'.redraws) :=
  render_pass_spec exW 0 (by decide)

/-- The arena obtained from exW by inserting a fourth node under id 2. -/
def exW2 : Widgets :=
  { cache :=
      [(0, { widget := Properties.default, texture := WidgetTexture.default,
             parent := 0, children := [1] }),
       (1, { widget := Properties.default, texture := WidgetTexture.default,
             parent := 0, children := [2] }),
       (2, { widget := Properties.default, texture := WidgetTexture.default,
             parent := 1, children := [3] }),
       (3, { widget := Properties.default, texture := WidgetTexture.default,
             parent := 2, children := [] })],
    next_id := 4 }

/-- C10 claim theorem: Widgets::new establishes the arena well-formedness
invariant and Widgets::insert preserves it, handing out a fresh id strictly
greater than every id already present and recording the new node as a child
of the existing parent; hence the parent/child structure is acyclic (the
subtree relation is antisymmetric) and both recursive traversals, translate
and the draw_widget render pass, terminate on every such arena when run with
fuel next_id. -/
theorem insert_fresh_acyclic_terminating (root_widget widget : Properties)
    (w w' : Widgets) (parent id tid : Nat) (dx dy : Int) (ntex : Nat)
    (hwf : w.WF) (hins : w.insert widget parent = some (w', id))
    (htid : tid ∈ w.keys) :
    (Widgets.new root_widget).WF
    ∧ w'.WF
    ∧ id = w.next_id
    ∧ (∀ k ∈ w.keys, k < id)
    ∧ (∃ e0, alookup w.cache parent = some e0 ∧
        alookup w'.cache parent = some { e0 with children := e0.children ++ [id] })
    ∧ (∀ a b, w.Desc a b → w.Desc b a → a = b)
    ∧ (Widgets.translate w.next_id w tid dx dy).isSome
    ∧ (w.draw ntex).isSome := by
  have hi := insert_wf w widget parent w' id hwf hins
  refine ⟨new_wf root_widget, hi.1, hi.2.1, hi.2.2.1, hi.2.2.2.2.2.1, ?_, ?_, ?_⟩
  · intro a b hab hba
    have h1 := hab.le hwf
    have h2 := hba.le hwf
    omega
  · by_cases hnz : dx = 0 ∧ dy = 0
    · obtain ⟨rfl, rfl⟩ := hnz
      rw [(translate_spec w tid 0 0 hwf htid).2]
      rfl
    · rcases (translate_spec w tid dx dy hwf htid).1 hnz with ⟨w2, hw2, _⟩
      rw [hw2]
      rfl
  · rcases render_pass_spec w ntex hwf with ⟨s', hs', _⟩
    rw [hs']
    rfl

/-- C10 witness: inserting a node under id 2 of the concrete arena. -/
theorem insert_fresh_acyclic_terminating_witness :
    (Widgets.new Properties.default).WF
    ∧ exW2.WF
    ∧ (3 : Nat) = exW.next_id
    ∧ (∀ k ∈ exW.keys, k < 3)
    ∧ (∃ e0, alookup exW.cache 2 = some e0 ∧
        alookup exW2.cache 2 = some { e0 with children := e0.children ++ [3] })
    ∧ (∀ a b, exW.Desc a b → exW.Desc b a → a = b)
    ∧ (Widgets.translate exW.next_id exW 0 7 (-2)).isSome
    ∧ (exW.draw 0).isSome :=
  insert_fresh_acyclic_terminating Properties.default Properties.default exW exW2 2 3 0
    7 (-2) 0 (by decide) (by decide) (by decide)

-- ## Grid Navigation (src/menu.rs)

def TILE_WIDTH : Nat := 500
def TILE_HEIGHT : Nat := 281
def TILE_MARGIN : Nat := 28
def ROW_HEIGHT : Nat := TILE_HEIGHT + 156
def CURSOR_BORDER_COLOR : Color := Color.WHITE
def CURSOR_BORDER_WIDTH : Nat := 10

/-- Reinterpretation of a usize value as isize (Rust as-cast, 64-bit target). -/
def isizeOfUsize (n : Nat) : Int :=
  if n < 2 ^ 63 then (n : Int) else (n : Int) - 2 ^ 64

/-- Reinterpretation of an isize value as usize (Rust as-cast, wrapping). -/
def usizeOfIsize (i : Int) : Nat := (i % 2 ^ 64).toNat

/-- Reinterpretation of a u32 value as i32 (Rust as-cast, wrapping). -/
def i32OfU32 (n : Nat) : Int :=
  if n < 2 ^ 31 then (n : Int) else (n : Int) - 2 ^ 32

/-- Mirrors fn find_tile_index in menu.rs:
(column as isize + scroll_offset - adj_scroll_offset) as usize.
Release-mode signed wrapping of the intermediate sums composed with the final
as-usize cast equals exact integer arithmetic followed by one reduction
mod 2^64. -/
def find_tile_index (column : Nat) (scroll_offset adj_scroll_offset : Int) : Nat :=
  usizeOfIsize (isizeOfUsize column + scroll_offset - adj_scroll_offset)

/-- C7 claim theorem: resolving a destination tile adjusts the requested
column by the difference between the current row's scroll-offset and the
destination row's scroll-offset before the destination row's child list is
indexed: whenever the adjusted value is a representable index,
find_tile_index computes exactly column + scroll_offset - adj_scroll_offset;
in particular column request 4 with current-row offset -1 and target-row
offset +1 resolves to child index 2. -/
theorem find_tile_index_spec (column : Nat) (so adj : Int)
    (hcol : column < 2 ^ 63)
    (hge : 0 ≤ (column : Int) + so - adj)
    (hlt : (column : Int) + so - adj < 2 ^ 64) :
    (find_tile_index column so adj : Int) = (column : Int) + so - adj
    ∧ find_tile_index 4 (-1) 1 = 2 := by
  constructor
  · unfold find_tile_index usizeOfIsize isizeOfUsize
    rw [if_pos hcol, Int.emod_eq_of_lt hge hlt]
    exact Int.toNat_of_nonneg hge
  · decide

/-- C7 witness at the spec's own example inputs. -/
theorem find_tile_index_spec_witness :
    ((find_tile_index 4 (-1) 1 : Nat) : Int) = ((4 : Nat) : Int) + (-1) - 1
    ∧ find_tile_index 4 (-1) 1 = 2 :=
  find_tile_index_spec 4 (-1) 1 (by decide) (by decide) (by decide)

/-- A signed integer offset marking how far a grid row has been scrolled
(type ScrollOffset in menu.rs; isize is modelled as Int). -/
abbrev ScrollOffset : Type := Int

/-- Mirrors struct Menu. The Rc<Fetcher> field is omitted: it is the shared
download-engine handle and is never consulted by the navigation logic. -/
structure Menu where
  rows : List (Nat × ScrollOffset)
  selected_tile : Nat × Nat
  grid_root : Nat

/-- Mirrors Menu::select_tile. The floating-point shrink computation
(width as f32 * (1.0 / CURSOR_SCALE_FACTOR)) as u32 is abstracted by the
parameter `scaleDown` (f32 rounding is not exactly representable here); none
of the claims proved below depend on its values. Panics in the source
(rows[cur_row] out of range, missing widget ids, fuel exhaustion of the
recursive translate) are modelled as none; paths on which the source mutates
nothing return the state unchanged. -/
def selectTile (scaleDown : Nat → Nat) (m : Menu) (row column : Nat)
    (w : Widgets) : Option (Menu × Widgets) := do
  let curRow := m.selected_tile.1
  let curColumn := m.selected_tile.2
  let (curTileId, curScrollOffset) ← m.rows.get? curRow
  match m.rows.get? row with
  | none => some (m, w)
  | some (anchorId, scrollOffset) => do
    let anchorEntry ← alookup w.cache anchorId
    let tileIds := anchorEntry.children
    let column := find_tile_index column curScrollOffset scrollOffset
    match tileIds.get? column with
    | none => some (m, w)
    | some tileId => do
      -- Deselect the current tile and scale it down, if necessary.
      let curAnchorEntry ← alookup w.cache curTileId
      let curTileWidgetId ← curAnchorEntry.children.get? curColumn
      let curTileEntry ← alookup w.cache curTileWidgetId
      let width := curTileEntry.widget.bounds.1
      let height := curTileEntry.widget.bounds.2
      let newWidth := scaleDown width
      let newHeight := scaleDown height
      let deltaWidth := width - newWidth
      let deltaHeight := height - newHeight
      -- Confirm that this tile is actually scaled up before shrinking it.
      let w := if width ≠ TILE_WIDTH ∧ height ≠ TILE_HEIGHT then
          w.modify curTileWidgetId fun e =>
            { e with widget :=
              { e.widget with
                bounds := (newWidth, newHeight),
                origin := (e.widget.origin.1 + Int.tdiv (i32OfU32 deltaWidth) 2,
                           e.widget.origin.2 + Int.tdiv (i32OfU32 deltaHeight) 2),
                invalidated := true } }
        else w
      let w := w.modify curTileWidgetId fun e =>
        { e with widget := { e.widget with border := none, invalidated := true } }
      -- Select the new tile and scale it up.
      let newTileEntry ← alookup w.cache tileId
      let tw := newTileEntry.widget.bounds.1
      let th := newTileEntry.widget.bounds.2
      let newTileX := newTileEntry.widget.origin.1 - Int.tdiv (i32OfU32 deltaWidth) 2
      let newTileY := newTileEntry.widget.origin.2 - Int.tdiv (i32OfU32 deltaHeight) 2
      let w := w.modify tileId fun e =>
        { e with widget :=
          { e.widget with
            bounds := (tw + deltaWidth, th + deltaHeight),
            origin := (newTileX, newTileY),
            border := some (CURSOR_BORDER_COLOR, CURSOR_BORDER_WIDTH),
            invalidated := true } }
      -- Scroll the entire page up and down, if necessary.
      let rootEntry ← alookup w.cache 0
      let rootX := rootEntry.widget.origin.1
      let rootY := rootEntry.widget.origin.2
      let rootW := rootEntry.widget.bounds.1
      let rootH := rootEntry.widget.bounds.2
      let w ←
        if curRow > row then do
          let gridEntry ← alookup w.cache m.grid_root
          let gridY := gridEntry.widget.origin.2
          let shouldScrollUp := newTileY + (TILE_HEIGHT : Int) < Int.tdiv (i32OfU32 rootH) 2
          let isNotFirstRow := gridY < rootY
          if shouldScrollUp ∧ isNotFirstRow then
            Widgets.translate w.next_id w m.grid_root 0 (ROW_HEIGHT : Int)
          else some w
        else if curRow < row then
          let shouldScrollDown := newTileY - (TILE_HEIGHT : Int) > Int.tdiv (i32OfU32 rootH) 2
          if shouldScrollDown then
            Widgets.translate w.next_id w m.grid_root 0 (-(ROW_HEIGHT : Int))
          else some w
        else some w
      -- Scroll the current row left and right, if necessary.
      let state ←
        if curColumn > column then do
          let anchorEntry2 ← alookup w.cache anchorId
          let anchorX := anchorEntry2.widget.origin.1
          let shouldScrollLeft := newTileX < rootX
          let isNotFirstColumn := anchorX < rootX
          if shouldScrollLeft ∧ isNotFirstColumn then do
            let w ← Widgets.translate w.next_id w anchorId
              ((TILE_WIDTH : Int) + (TILE_MARGIN : Int)) 0
            some ({ m with rows := m.rows.set curRow (curTileId, curScrollOffset + 1) }, w)
          else some (m, w)
        else if curColumn < column then
          if newTileX + (TILE_WIDTH : Int) > i32OfU32 rootW then do
            let w ← Widgets.translate w.next_id w anchorId
              (-((TILE_WIDTH : Int) + (TILE_MARGIN : Int))) 0
            some ({ m with rows := m.rows.set curRow (curTileId, curScrollOffset - 1) }, w)
          else some (m, w)
        else some (m, w)
      some ({ state.1 with selected_tile := (row, column) }, state.2)

/-- Mirrors Menu::move_up: row.saturating_sub(1), exactly Nat subtraction. -/
def Menu.move_up (sd : Nat → Nat) (m : Menu) (w : Widgets) : Option (Menu × Widgets) :=
  selectTile sd m (m.selected_tile.1 - 1) m.selected_tile.2 w

/-- Mirrors Menu::move_down. -/
def Menu.move_down (sd : Nat → Nat) (m : Menu) (w : Widgets) : Option (Menu × Widgets) :=
  selectTile sd m (m.selected_tile.1 + 1) m.selected_tile.2 w

/-- Mirrors Menu::move_left: column.saturating_sub(1). -/
def Menu.move_left (sd : Nat → Nat) (m : Menu) (w : Widgets) : Option (Menu × Widgets) :=
  selectTile sd m m.selected_tile.1 (m.selected_tile.2 - 1) w

/-- Mirrors Menu::move_right. -/
def Menu.move_right (sd : Nat → Nat) (m : Menu) (w : Widgets) : Option (Menu × Widgets) :=
  selectTile sd m m.selected_tile.1 (m.selected_tile.2 + 1) w

/-- C6 claim theorem: every navigation transition targets the clamped
row/column pair (Nat subtraction saturates at 0 exactly like saturating_sub,
so the selection indices never underflow), and whenever the destination row
is not present in the rows table, or the offset-adjusted destination column
does not index an existing tile of the destination row, select_tile is a
silent no-op: the returned menu state (selection pair and every row's
scroll-offset) and the whole widget arena are the unchanged inputs. -/
theorem navigation_clamp_noop (sd : Nat → Nat) (m : Menu) (w : Widgets)
    (ctid : Nat) (coff : Int)
    (hcur : m.rows.get? m.selected_tile.1 = some (ctid, coff)) :
    (Menu.move_up sd m w = selectTile sd m (m.selected_tile.1 - 1) m.selected_tile.2 w)
    ∧ (Menu.move_down sd m w
        = selectTile sd m (m.selected_tile.1 + 1) m.selected_tile.2 w)
    ∧ (Menu.move_left sd m w
        = selectTile sd m m.selected_tile.1 (m.selected_tile.2 - 1) w)
    ∧ (Menu.move_right sd m w
        = selectTile sd m m.selected_tile.1 (m.selected_tile.2 + 1) w)
    ∧ (m.selected_tile.1 = 0 →
        Menu.move_up sd m w = selectTile sd m 0 m.selected_tile.2 w)
    ∧ (m.selected_tile.2 = 0 →
        Menu.move_left sd m w = selectTile sd m m.selected_tile.1 0 w)
    ∧ (∀ row col, m.rows.get? row = none → selectTile sd m row col w = some (m, w))
    ∧ (∀ row col aid soff e, m.rows.get? row = some (aid, soff) →
        alookup w.cache aid = some e →
        e.children.get? (find_tile_index col coff soff) = none →
        selectTile sd m row col w = some (m, w)) := by
  refine ⟨rfl, rfl, rfl, rfl, ?_, ?_, ?_, ?_⟩
  · intro h
    simp [Menu.move_up, h]
  · intro h
    simp [Menu.move_left, h]
  · intro row col h
    rw [List.get?_eq_getElem?] at hcur h
    simp [selectTile, hcur, h]
  · intro row col aid soff e hrow he hget
    rw [List.get?_eq_getElem?] at hcur hrow hget
    simp [selectTile, hcur, hrow, he, hget]

/-- A concrete menu over exW: one row anchored at widget 1, not scrolled. -/
def exMenu : Menu := { rows := [(1, 0)], selected_tile := (0, 0), grid_root := 1 }

/-- C6 witness on the concrete menu and arena. -/
theorem navigation_clamp_noop_witness :
    (Menu.move_up (fun n => n * 10 / 11) exMenu exW
        = selectTile (fun n => n * 10 / 11) exMenu
            (exMenu.selected_tile.1 - 1) exMenu.selected_tile.2 exW)
    ∧ (Menu.move_down (fun n => n * 10 / 11) exMenu exW
        = selectTile (fun n => n * 10 / 11) exMenu
            (exMenu.selected_tile.1 + 1) exMenu.selected_tile.2 exW)
    ∧ (Menu.move_left (fun n => n * 10 / 11) exMenu exW
        = selectTile (fun n => n * 10 / 11) exMenu
            exMenu.selected_tile.1 (exMenu.selected_tile.2 - 1) exW)
    ∧ (Menu.move_right (fun n => n * 10 / 11) exMenu exW
        = selectTile (fun n => n * 10 / 11) exMenu
            exMenu.selected_tile.1 (exMenu.selected_tile.2 + 1) exW)
    ∧ (exMenu.selected_tile.1 = 0 →
        Menu.move_up (fun n => n * 10 / 11) exMenu exW
          = selectTile (fun n => n * 10 / 11) exMenu 0 exMenu.selected_tile.2 exW)
    ∧ (exMenu.selected_tile.2 = 0 →
        Menu.move_left (fun n => n * 10 / 11) exMenu exW
          = selectTile (fun n => n * 10 / 11) exMenu exMenu.selected_tile.1 0 exW)
    ∧ (∀ row col, exMenu.rows.get? row = none →
        selectTile (fun n => n * 10 / 11) exMenu row col exW = some (exMenu, exW))
    ∧ (∀ row col aid soff e, exMenu.rows.get? row = some (aid, soff) →
        alookup exW.cache aid = some e →
        e.children.get? (find_tile_index col 0 soff) = none →
        selectTile (fun n => n * 10 / 11) exMenu row col exW = some (exMenu, exW)) :=
  navigation_clamp_noop (fun n => n * 10 / 11) exMenu exW 1 0 rfl

/-- C9 claim theorem: for every select_tile call in which the offset-adjusted
column (requested column + current-row offset - destination-row offset) is
negative, the as-usize cast of that negative value wraps to a value of at
least 2^63, which is larger than the length of any child list, so the guarded
child lookup returns None and the call completes as a silent no-op without
panicking and without changing any state. -/
theorem negative_adjusted_column_noop (sd : Nat → Nat) (m : Menu) (w : Widgets)
    (ctid : Nat) (coff soff : Int) (row col aid : Nat) (e : CacheEntry)
    (hcur : m.rows.get? m.selected_tile.1 = some (ctid, coff))
    (hrow : m.rows.get? row = some (aid, soff))
    (he : alookup w.cache aid = some e)
    (hcol : col < 2 ^ 63)
    (hneg : (col : Int) + coff - soff < 0)
    (hge : -(2 ^ 63) ≤ (col : Int) + coff - soff)
    (hlen : e.children.length < 2 ^ 63) :
    2 ^ 63 ≤ find_tile_index col coff soff
    ∧ e.children.get? (find_tile_index col coff soff) = none
    ∧ selectTile sd m row col w = some (m, w) := by
  have hv : find_tile_index col coff soff
      = ((col : Int) + coff - soff + 2 ^ 64).toNat := by
    unfold find_tile_index usizeOfIsize isizeOfUsize
    rw [if_pos hcol]
    have hm : ((col : Int) + coff - soff) % 2 ^ 64
        = (col : Int) + coff - soff + 2 ^ 64 := by
      have h1 : ((col : Int) + coff - soff + 2 ^ 64) % 2 ^ 64
          = ((col : Int) + coff - soff) % 2 ^ 64 := Int.add_emod_self
      rw [← h1, Int.emod_eq_of_lt (by omega) (by omega)]
    rw [hm]
  have hbig : 2 ^ 63 ≤ find_tile_index col coff soff := by
    rw [hv]
    omega
  have hnone : e.children.get? (find_tile_index col coff soff) = none := by
    rw [List.get?_eq_none]
    omega
  refine ⟨hbig, hnone, ?_⟩
  rw [List.get?_eq_getElem?] at hcur hrow hnone
  simp [selectTile, hcur, hrow, he, hnone]

/-- A concrete two-row menu whose rows have been scrolled by different
amounts, so that a column request on the other row under-adjusts below 0. -/
def exMenu9 : Menu := { rows := [(1, -1), (1, 1)], selected_tile := (0, 0), grid_root := 1 }

/-- C9 witness: requesting column 0 of row 1 from row 0 adjusts to -2. -/
theorem negative_adjusted_column_noop_witness :
    2 ^ 63 ≤ find_tile_index 0 (-1) 1
    ∧ ({ widget := Properties.default, texture := WidgetTexture.default,
          parent := 0, children := [2] } : CacheEntry).children.get?
        (find_tile_index 0 (-1) 1) = none
    ∧ selectTile (fun n => n * 10 / 11) exMenu9 1 0 exW = some (exMenu9, exW) :=
  negative_adjusted_column_noop (fun n => n * 10 / 11) exMenu9 exW 1 (-1) 1 1 0 1
    { widget := Properties.default, texture := WidgetTexture.default,
      parent := 0, children := [2] }
    rfl rfl rfl (by decide) (by decide) (by decide) (by decide)
